import Mathlib

/-!
Verification of the storage-layout engine of `sky3ds/disk.py` (class
`Sky3DS_Disk`).  The disk is modelled as a total function from byte
address to byte value; file contents are modelled as `List Nat` of byte
values; Python integers are modelled as `Nat`/`Int` with explicit
truncation where the source truncates.  Fallible operations return
`Except DiskError`.
-/

namespace Sky3DS

/-- Error taxonomy for the operations of `Sky3DS_Disk`.  Each constructor
corresponds to one `raise` site of the source (or, for `indexError`, to an
uncaught Python `IndexError` from an out-of-range list subscript). -/
inductive DiskError where
  | notFormatted
  | insufficientSpace
  | slotTableFull
  | slotNotFound
  | gameNotFound
  | invalidSavegameFile
  | invalidTemplate
  | indexError
  deriving DecidableEq, Repr

/-- Read `n` bytes from disk `d` starting at byte address `pos`
(`diskfp.seek(pos); diskfp.read(n)`). -/
def readBytes (d : Nat → Nat) (pos n : Nat) : List Nat :=
  (List.range n).map (fun i => d (pos + i))

/-- Write the byte list `data` to disk `d` at byte address `pos`
(`diskfp.seek(pos); diskfp.write(data)`). -/
def writeBytes (d : Nat → Nat) (pos : Nat) (data : List Nat) : Nat → Nat :=
  fun a => if pos ≤ a ∧ a < pos + data.length then data.getD (a - pos) 0 else d a

/-- Overwrite the bytes of file contents `l` starting at offset `off` with
`data` (`fp.seek(off); fp.write(data)` on a file opened for writing whose
current contents are `l`, with `off + data.length ≤ l.length`). -/
def overwriteList (l : List Nat) (off : Nat) (data : List Nat) : List Nat :=
  l.take off ++ data ++ l.drop (off + data.length)

/-- Decode a little-endian signed 32-bit integer from bytes
`raw[off], raw[off+1], raw[off+2], raw[off+3]` (one half of
`struct.unpack("ii", ...)` in `update_rom_list`). -/
def readS32 (raw : List Nat) (off : Nat) : Int :=
  let u := raw.getD off 0 + 0x100 * raw.getD (off+1) 0 +
           0x10000 * raw.getD (off+2) 0 + 0x1000000 * raw.getD (off+3) 0
  if u < 0x80000000 then (u : Int) else (u : Int) - 0x100000000

/-- Encode a natural number below `2^31` as four little-endian bytes (one
half of `struct.pack("ii", start_block, rom_blocks)` in `write_rom`, whose
arguments are positive there). -/
def packU32 (v : Nat) : List Nat :=
  [v % 0x100, v / 0x100 % 0x100, v / 0x10000 % 0x100, v / 0x1000000 % 0x100]

/-!
Slot-table reader (`update_rom_list`, first half).  The 0x100-byte header
is scanned as 32 8-byte records, each decoded as two little-endian signed
32-bit integers `(start_sector, size_sector)`; records with both values
strictly positive are collected, each entry being
`[len(positions), start_sector*512, size_sector*512]`.
-/

/-- Decode the `i`-th 8-byte record of the raw slot table
(`struct.unpack("ii", raw_positions[i*8:i*8+8])`). -/
def decodeRecord (raw : List Nat) (i : Nat) : Int × Int :=
  (readS32 raw (8*i), readS32 raw (8*i + 4))

/-- Slot-table scan of `update_rom_list`: for `i` in `range(32)`, decode
record `i` and, when both components are strictly positive, append
`[len(positions), start_sector*512, size_sector*512]` to the accumulator. -/
def update_positions (raw : List Nat) : List (Nat × Nat × Nat) :=
  (List.range 32).foldl
    (fun acc i =>
      let p := decodeRecord raw i
      if 0 < p.1 ∧ 0 < p.2 then
        acc ++ [(acc.length, (512 * p.1).toNat, (512 * p.2).toNat)]
      else acc)
    []

/-- Records of the raw table that pass the `position[0] > 0 and
position[1] > 0` guard, in table order. -/
def qualifyingRecords (raw : List Nat) : List (Int × Int) :=
  ((List.range 32).map (decodeRecord raw)).filter
    (fun p => decide (0 < p.1 ∧ 0 < p.2))

/-!
Block map and free-region computation (`update_rom_list`, second half).
The device is quantized into `disk_size / 0x2000000` 32 MiB blocks;
block 0 is marked occupied, each rom marks the blocks it spans, and
maximal runs of free blocks are collected by a left-to-right scan, then
sorted by descending length (Python `sorted(..., key=len, reverse=True)`
is a stable sort) and scaled from 32 MiB blocks to 512-byte sectors.
-/

/-- Mark `n` consecutive blocks of the block map as occupied, starting at
block `s` (`true` = occupied). -/
def markUsedAux (bm : List Bool) (s : Nat) : Nat → List Bool
  | 0 => bm
  | n+1 => markUsedAux (bm.set s true) (s+1) n

/-- Mark blocks `[s, e)` of the block map as occupied
(`for i in range(start, end): block_map[i] = 'X'`; `range(s, e)` iterates
`e - s` times). -/
def markUsed (bm : List Bool) (s e : Nat) : List Bool :=
  markUsedAux bm s (e - s)

/-- Block map built by `update_rom_list`: block 0 occupied, then each rom
of the rom list marks blocks `[start/0x2000000, start/0x2000000 + size/0x2000000)`. -/
def block_map (max_blocks : Nat) (roms : List (Nat × Nat × Nat)) : List Bool :=
  roms.foldl
    (fun bm rom => markUsed bm (rom.2.1 / 0x2000000) (rom.2.1 / 0x2000000 + rom.2.2 / 0x2000000))
    (true :: List.replicate (max_blocks - 1) false)

/-- Free-region scan of `update_rom_list`: walk the block map with the
current index `i` and a `start_block` marker that is `0` when not inside a
free run, emitting `[start_block, i - start_block]` when a run ends, plus a
final emission after the loop if a run is still open. -/
def freeScan (bm : List Bool) (i s : Nat) : List (Nat × Nat) :=
  match bm with
  | [] => if s = 0 then [] else [(s, i - s)]
  | b :: rest =>
    if b = false ∧ s = 0 then freeScan rest (i+1) i
    else if b = true ∧ ¬ s = 0 then (s, i - s) :: freeScan rest (i+1) 0
    else freeScan rest (i+1) s

/-- Specification-side description of the free regions: the maximal runs
of `false` (free) blocks of the block map, as `(start index, length)`
pairs in ascending order of start index. -/
def maximalRuns (bm : List Bool) (i : Nat) : List (Nat × Nat) :=
  match bm with
  | [] => []
  | true :: rest => maximalRuns rest (i+1)
  | false :: rest =>
    let k := (rest.takeWhile (fun b => b = false)).length
    (i, k+1) :: maximalRuns (rest.drop k) (i+k+1)
termination_by bm.length
decreasing_by
  · simp
  · have h1 := (@List.takeWhile_prefix _ rest (fun b => b = false)).length_le
    simp
    omega

/-- Insert a free region into a list already sorted by descending length:
the element is placed in front of the first element whose length does not
exceed its own.  Used to build a stable descending sort: the inserted
element always originates earlier in the scan than every element of the
list, so placing it in front of equal lengths preserves the scan order of
ties. -/
def insertDesc (x : Nat × Nat) : List (Nat × Nat) → List (Nat × Nat)
  | [] => [x]
  | y :: ys => if y.2 ≤ x.2 then x :: y :: ys else y :: insertDesc x ys

/-- Stable sort by descending region length, modelling
`sorted(free_blocks, key=lambda x: x[1], reverse=True)` (Python sorting is
stable and `reverse=True` does not reorder ties; a stable insertion sort
produces the identical list). -/
def sortDesc : List (Nat × Nat) → List (Nat × Nat)
  | [] => []
  | x :: xs => insertDesc x (sortDesc xs)

/-- Block-map rebuild `update_rom_list`: returns the parsed rom list
together with the free-region list, the latter sorted by descending
length and scaled to 512-byte sectors (`[[i*0x10000, j*0x10000] ...]`). -/
def update_rom_list (raw : List Nat) (disk_size : Nat) :
    List (Nat × Nat × Nat) × List (Nat × Nat) :=
  let positions := update_positions raw
  let max_blocks := disk_size / 0x2000000
  let bm := block_map max_blocks positions
  let free_blocks := sortDesc (freeScan bm 0 0)
  (positions, free_blocks.map (fun p => (p.1 * 0x10000, p.2 * 0x10000)))

/-!
Rom-size sector count and free-block allocation in `write_rom`.
-/

/-- Sector count computed by `write_rom`:
`rom_blocks = int(rom_size / 0x200)`.  Python `int(a / b)` truncates the
true division toward zero, i.e. floor division for the nonnegative sizes
involved here (exact for every size a 3DS medium can hold). -/
def rom_blocks_of (rom_size : Nat) : Nat := rom_size / 0x200

/-- Free-block search of `write_rom`: scan the descending-sorted
free-region list backwards (`self.free_blocks[::-1]`) and take the first
region whose length (in sectors) is at least `rom_blocks`, defaulting to
`0` when none fits. -/
def allocate_start (free_blocks : List (Nat × Nat)) (rom_blocks : Nat) : Nat :=
  match free_blocks.reverse.find? (fun fb => decide (rom_blocks ≤ fb.2)) with
  | some fb => fb.1
  | none => 0

/-- Allocation step of `write_rom` including its failure check
(`if start_block == 0: raise Exception("Not enough free continous blocks")`). -/
def write_rom_allocate (free_blocks : List (Nat × Nat)) (rom_blocks : Nat) :
    Except DiskError Nat :=
  let s := allocate_start free_blocks rom_blocks
  if s = 0 then .error .insufficientSpace else .ok s

/-!
Concrete slot tables used as inputs for counterexamples and witnesses.
-/

/-- Slot table whose record 0 is the all-ones sentinel and whose record 1
is `(start_sector, size_sector) = (1, 1)`; all later records sentinel. -/
def gapTable : List Nat :=
  List.replicate 8 0xFF ++ [1, 0, 0, 0, 1, 0, 0, 0] ++ List.replicate 240 0xFF

/-- Slot table with two occupied records, `(0x30000, 0x10000)` and
`(0x60000, 0x10000)` in sectors (roms at blocks 3 and 6, one 32 MiB block
each); on a 7-block disk this leaves two free regions of equal length 2
at blocks 1 and 4. -/
def tieTable : List Nat :=
  [0x00, 0x00, 0x03, 0x00, 0x00, 0x00, 0x01, 0x00] ++
  [0x00, 0x00, 0x06, 0x00, 0x00, 0x00, 0x01, 0x00] ++
  List.replicate 240 0xFF

/-- Slot table with every record equal to the all-ones sentinel (freshly
formatted card). -/
def emptyTable : List Nat :=
  List.replicate 0x100 0xFF

deriving instance DecidableEq for Except

end Sky3DS

namespace Sky3DS

/-!
Claim C4.
-/

/-- Claim C4 (counterexample): for a rom of 0x201 bytes `write_rom`
computes `int(0x201 / 0x200) = 1` sector, while
`ceil(0x201 / 0x200) = 2`; the block count is not the ceiling. -/
theorem C4_counterexample :
    rom_blocks_of 0x201 ≠ (0x201 + 0x200 - 1) / 0x200 := by decide

/-- Claim C4 (amended): for every rom file size, `write_rom` computes the
sector count as the floor of `rom_size / 512`, i.e. the unique `b` with
`512*b ≤ rom_size < 512*(b+1)`; it agrees with the ceiling exactly when
the size is a multiple of 512 bytes. -/
theorem C4_amended (rom_size : Nat) :
    0x200 * rom_blocks_of rom_size ≤ rom_size ∧
    rom_size < 0x200 * (rom_blocks_of rom_size + 1) ∧
    (rom_blocks_of rom_size = (rom_size + 0x200 - 1) / 0x200 ↔ rom_size % 0x200 = 0) := by
  unfold rom_blocks_of
  omega

/-!
Claim C5.
-/

/-- One step of the slot-table scan of `update_rom_list`. -/
def positionsStep (raw : List Nat) (acc : List (Nat × Nat × Nat)) (i : Nat) :
    List (Nat × Nat × Nat) :=
  let p := decodeRecord raw i
  if 0 < p.1 ∧ 0 < p.2 then
    acc ++ [(acc.length, (512 * p.1).toNat, (512 * p.2).toNat)]
  else acc

theorem update_positions_eq_foldl (raw : List Nat) :
    update_positions raw = (List.range 32).foldl (positionsStep raw) [] := rfl

theorem positions_foldl_characterization (raw : List Nat) (idxs : List Nat) :
    ∀ acc : List (Nat × Nat × Nat),
      idxs.foldl (positionsStep raw) acc =
        acc ++ (((idxs.map (decodeRecord raw)).filter
            (fun p => decide (0 < p.1 ∧ 0 < p.2))).enumFrom acc.length).map
          (fun kp => (kp.1, (512 * kp.2.1).toNat, (512 * kp.2.2).toNat)) := by
  induction idxs with
  | nil => intro acc; simp
  | cons i rest ih =>
    intro acc
    by_cases h : 0 < (decodeRecord raw i).1 ∧ 0 < (decodeRecord raw i).2
    · simp only [List.foldl_cons, positionsStep, if_pos h, ih, List.map_cons,
        List.filter_cons, decide_eq_true h, List.enumFrom, List.map_cons]
      simp [List.append_assoc]
    · simp only [List.foldl_cons, positionsStep, if_neg h, ih, List.map_cons,
        List.filter_cons]
      simp [h]

/-- Claim C5 (amended): the slot-table reader decodes the 0x100-byte
header as 32 8-byte records of two little-endian signed 32-bit integers,
surfaces exactly the records where both values are strictly positive with
both values scaled by 512 to bytes, and assigns each surfaced record a
slot index equal to its rank among the surfaced records (in table order),
which equals its table position only when no earlier record is skipped. -/
theorem C5_amended (raw : List Nat) :
    update_positions raw =
      ((qualifyingRecords raw).enum).map
        (fun kp => (kp.1, (512 * kp.2.1).toNat, (512 * kp.2.2).toNat)) := by
  rw [update_positions_eq_foldl, positions_foldl_characterization]
  simp [qualifyingRecords, List.enum]

/-!
Helper lemmas about `freeScan` and `maximalRuns` used by claims C1 and C2.
-/

theorem maximalRuns_nil (i : Nat) : maximalRuns [] i = [] := by
  conv_lhs => rw [maximalRuns]

theorem maximalRuns_cons_true (rest : List Bool) (i : Nat) :
    maximalRuns (true :: rest) i = maximalRuns rest (i+1) := by
  conv_lhs => rw [maximalRuns]

theorem maximalRuns_cons_false (rest : List Bool) (i : Nat) :
    maximalRuns (false :: rest) i =
      (i, (rest.takeWhile (fun b => b = false)).length + 1) ::
        maximalRuns (rest.drop (rest.takeWhile (fun b => b = false)).length)
          (i + (rest.takeWhile (fun b => b = false)).length + 1) := by
  conv_lhs => rw [maximalRuns]

theorem freeScan_cons_false_zero (rest : List Bool) (i : Nat) :
    freeScan (false :: rest) i 0 = freeScan rest (i+1) i := by
  simp [freeScan]

theorem freeScan_cons_false_pos (rest : List Bool) (i s : Nat) (hs : ¬ s = 0) :
    freeScan (false :: rest) i s = freeScan rest (i+1) s := by
  simp [freeScan, hs]

theorem freeScan_cons_true_zero (rest : List Bool) (i : Nat) :
    freeScan (true :: rest) i 0 = freeScan rest (i+1) 0 := by
  simp [freeScan]

theorem freeScan_cons_true_pos (rest : List Bool) (i s : Nat) (hs : ¬ s = 0) :
    freeScan (true :: rest) i s = (s, i - s) :: freeScan rest (i+1) 0 := by
  simp [freeScan, hs]

theorem maximalRuns_drop_run (l : List Bool) :
    ∀ j : Nat,
      maximalRuns (l.drop (l.takeWhile (fun b => b = false)).length) j =
        maximalRuns (l.drop ((l.takeWhile (fun b => b = false)).length + 1)) (j+1) := by
  induction l with
  | nil => intro j; simp [maximalRuns_nil]
  | cons b rest ih =>
    intro j
    cases b with
    | true => simp [List.takeWhile, maximalRuns_cons_true]
    | false =>
      have htw : (false :: rest).takeWhile (fun b => b = false) =
          false :: rest.takeWhile (fun b => b = false) := by
        simp [List.takeWhile]
      rw [htw]
      simp only [List.length_cons, List.drop_succ_cons]
      exact ih j

theorem freeScan_spec (bm : List Bool) :
    (∀ i, 1 ≤ i → freeScan bm i 0 = maximalRuns bm i) ∧
    (∀ i s, 1 ≤ s →
      freeScan bm i s =
        (s, i + (bm.takeWhile (fun b => b = false)).length - s) ::
          maximalRuns (bm.drop ((bm.takeWhile (fun b => b = false)).length + 1))
            (i + (bm.takeWhile (fun b => b = false)).length + 1)) := by
  induction bm with
  | nil =>
    constructor
    · intro i _
      simp [freeScan, maximalRuns_nil]
    · intro i s hs
      simp [freeScan, maximalRuns_nil, Nat.pos_iff_ne_zero.mp hs]
  | cons b rest ih =>
    constructor
    · intro i hi
      cases b with
      | true =>
        rw [freeScan_cons_true_zero, maximalRuns_cons_true, ih.1 (i+1) (by omega)]
      | false =>
        rw [freeScan_cons_false_zero, maximalRuns_cons_false,
          ih.2 (i+1) i (by omega)]
        rw [maximalRuns_drop_run]
        generalize (List.takeWhile (fun b => decide (b = false)) rest).length = k
        congr 2
        · omega
        · omega
    · intro i s hs
      cases b with
      | true =>
        rw [freeScan_cons_true_pos rest i s (by omega), ih.1 (i+1) (by omega)]
        have htw : (true :: rest).takeWhile (fun b => b = false) = [] := by
          simp [List.takeWhile]
        rw [htw]
        simp
      | false =>
        rw [freeScan_cons_false_pos rest i s (by omega), ih.2 (i+1) s hs]
        have htw : (false :: rest).takeWhile (fun b => b = false) =
            false :: rest.takeWhile (fun b => b = false) := by
          simp [List.takeWhile]
        rw [htw]
        simp only [List.length_cons, List.drop_succ_cons]
        generalize (List.takeWhile (fun b => decide (b = false)) rest).length = k
        congr 2
        · omega
        · omega

/-- Free-region scan of a block map whose block 0 is occupied computes
exactly the maximal runs of free blocks. -/
theorem freeScan_eq_maximalRuns (rest : List Bool) :
    freeScan (true :: rest) 0 0 = maximalRuns (true :: rest) 0 := by
  rw [freeScan_cons_true_zero, maximalRuns_cons_true]
  exact (freeScan_spec rest).1 1 (by omega)

theorem maximalRuns_bounds :
    ∀ (bm : List Bool) (i : Nat),
      (∀ r ∈ maximalRuns bm i, i ≤ r.1 ∧ 1 ≤ r.2) ∧
      (maximalRuns bm i).Pairwise (fun a b => a.1 < b.1)
  | [], i => by simp [maximalRuns_nil]
  | true :: rest, i => by
    rw [maximalRuns_cons_true]
    have h := maximalRuns_bounds rest (i+1)
    refine ⟨fun r hr => ?_, h.2⟩
    have := h.1 r hr
    omega
  | false :: rest, i => by
    rw [maximalRuns_cons_false]
    have hlen := (@List.takeWhile_prefix _ rest (fun b => b = false)).length_le
    have h := maximalRuns_bounds (rest.drop (rest.takeWhile (fun b => b = false)).length)
      (i + (rest.takeWhile (fun b => b = false)).length + 1)
    constructor
    · intro r hr
      rcases List.mem_cons.mp hr with h1 | h1
      · subst h1; omega
      · have := h.1 r h1
        omega
    · refine List.pairwise_cons.mpr ⟨fun r hr => ?_, h.2⟩
      have := h.1 r hr
      simp only
      omega
termination_by bm _ => bm.length
decreasing_by
  · simp
  · simp
    omega

theorem maximalRuns_sum :
    ∀ (bm : List Bool) (i : Nat),
      ((maximalRuns bm i).map Prod.snd).sum = bm.count false
  | [], i => by simp [maximalRuns_nil]
  | true :: rest, i => by
    rw [maximalRuns_cons_true, maximalRuns_sum rest (i+1)]
    simp [List.count_cons]
  | false :: rest, i => by
    rw [maximalRuns_cons_false]
    have hpre := @List.takeWhile_prefix _ rest (fun b => b = false)
    have hlen := hpre.length_le
    rw [List.map_cons, List.sum_cons,
      maximalRuns_sum (rest.drop (rest.takeWhile (fun b => b = false)).length)
        (i + (rest.takeWhile (fun b => b = false)).length + 1)]
    have hcount : (rest.takeWhile (fun b => b = false)).count false =
        (rest.takeWhile (fun b => b = false)).length := by
      rw [List.count_eq_length]
      intro b hb
      have hmem := List.mem_takeWhile_imp hb
      simp at hmem
      exact hmem.symm
    have hsplit : rest.count false =
        (rest.takeWhile (fun b => b = false)).length +
          (rest.drop (rest.takeWhile (fun b => b = false)).length).count false := by
      conv_lhs =>
        rw [← List.take_append_drop (rest.takeWhile (fun b => b = false)).length rest]
      rw [List.count_append, ← List.prefix_iff_eq_take.mp hpre, hcount]
    have hfinal : (false :: rest).count false = rest.count false + 1 := by
      simp [List.count_cons]
    rw [hfinal, hsplit]
    simp only
    omega
termination_by bm _ => bm.length
decreasing_by
  · simp
  · simp
    omega

/-!
Helper lemmas about the block map construction.
-/

theorem markUsedAux_length (bm : List Bool) (s : Nat) :
    ∀ n, (markUsedAux bm s n).length = bm.length := by
  intro n
  induction n generalizing bm s with
  | zero => rfl
  | succ n ih => simp [markUsedAux, ih]

theorem markUsedAux_getElem? (bm : List Bool) (s b : Nat) :
    ∀ n, (markUsedAux bm s n)[b]? =
      if s ≤ b ∧ b < s + n ∧ b < bm.length then some true else bm[b]? := by
  intro n
  induction n generalizing bm s with
  | zero =>
    simp only [markUsedAux]
    have : ¬ (s ≤ b ∧ b < s + 0 ∧ b < bm.length) := by omega
    rw [if_neg this]
  | succ n ih =>
    simp only [markUsedAux]
    rw [ih, List.length_set, List.getElem?_set]
    by_cases h1 : s + 1 ≤ b ∧ b < s + 1 + n ∧ b < bm.length
    · rw [if_pos h1, if_pos (by omega)]
    · rw [if_neg h1]
      by_cases h2 : s = b
      · subst h2
        by_cases h3 : s < bm.length
        · rw [if_pos rfl, if_pos h3, if_pos (by omega)]
        · rw [if_pos rfl, if_neg h3, if_neg (by omega)]
          rw [List.getElem?_eq_none (by omega)]
      · rw [if_neg h2, if_neg (by omega)]

theorem markUsed_length (bm : List Bool) (s e : Nat) :
    (markUsed bm s e).length = bm.length := markUsedAux_length bm s (e - s)

theorem markUsed_getElem? (bm : List Bool) (s e b : Nat) :
    (markUsed bm s e)[b]? =
      if s ≤ b ∧ b < e ∧ b < bm.length then some true else bm[b]? := by
  rw [markUsed, markUsedAux_getElem?]
  by_cases h : s ≤ b ∧ b < e ∧ b < bm.length
  · rw [if_pos (by omega), if_pos h]
  · rw [if_neg (by omega), if_neg h]

theorem block_map_length (max_blocks : Nat) (roms : List (Nat × Nat × Nat))
    (h : 1 ≤ max_blocks) :
    (block_map max_blocks roms).length = max_blocks := by
  suffices hgen : ∀ (l : List (Nat × Nat × Nat)) (bm : List Bool),
      (l.foldl (fun bm rom =>
        markUsed bm (rom.2.1 / 0x2000000) (rom.2.1 / 0x2000000 + rom.2.2 / 0x2000000)) bm).length
      = bm.length by
    rw [block_map, hgen]
    simp
    omega
  intro l
  induction l with
  | nil => intro bm; rfl
  | cons r rest ih =>
    intro bm
    simp only [List.foldl_cons, ih, markUsed_length]

theorem block_map_getElem? (max_blocks : Nat) (roms : List (Nat × Nat × Nat)) (b : Nat)
    (hb : b < max_blocks) (hmb : 1 ≤ max_blocks) :
    (block_map max_blocks roms)[b]? =
      if b = 0 ∨ ∃ rom ∈ roms,
          rom.2.1 / 0x2000000 ≤ b ∧ b < rom.2.1 / 0x2000000 + rom.2.2 / 0x2000000
      then some true else some false := by
  suffices hgen : ∀ (l : List (Nat × Nat × Nat)) (bm : List Bool), b < bm.length →
      (l.foldl (fun bm rom =>
        markUsed bm (rom.2.1 / 0x2000000) (rom.2.1 / 0x2000000 + rom.2.2 / 0x2000000)) bm)[b]?
      = if ∃ rom ∈ l,
            rom.2.1 / 0x2000000 ≤ b ∧ b < rom.2.1 / 0x2000000 + rom.2.2 / 0x2000000
        then some true else bm[b]? by
    have hlen : b < (true :: List.replicate (max_blocks - 1) false).length := by
      simp
      omega
    rw [block_map, hgen _ _ hlen]
    by_cases h0 : b = 0
    · subst h0
      by_cases hex : ∃ rom ∈ roms,
          rom.2.1 / 0x2000000 ≤ 0 ∧ 0 < rom.2.1 / 0x2000000 + rom.2.2 / 0x2000000
      · rw [if_pos hex, if_pos (Or.inl rfl)]
      · rw [if_neg hex, if_pos (Or.inl rfl)]
        simp
    · by_cases hex : ∃ rom ∈ roms,
          rom.2.1 / 0x2000000 ≤ b ∧ b < rom.2.1 / 0x2000000 + rom.2.2 / 0x2000000
      · rw [if_pos hex, if_pos (Or.inr hex)]
      · rw [if_neg hex, if_neg (fun hcon => hcon.elim h0 hex)]
        rcases Nat.exists_eq_succ_of_ne_zero h0 with ⟨c, hc⟩
        subst hc
        rw [List.getElem?_cons_succ, List.getElem?_replicate]
        rw [if_pos (by simp at hlen; omega)]
  intro l
  induction l with
  | nil =>
    intro bm _
    simp
  | cons r rest ih =>
    intro bm hblen
    simp only [List.foldl_cons]
    rw [ih _ (by rw [markUsed_length]; exact hblen), markUsed_getElem?]
    by_cases hex : ∃ rom ∈ rest,
        rom.2.1 / 0x2000000 ≤ b ∧ b < rom.2.1 / 0x2000000 + rom.2.2 / 0x2000000
    · have houter : ∃ rom ∈ r :: rest,
          rom.2.1 / 0x2000000 ≤ b ∧ b < rom.2.1 / 0x2000000 + rom.2.2 / 0x2000000 := by
        rcases hex with ⟨rom, hm, hrom⟩
        exact ⟨rom, List.mem_cons_of_mem r hm, hrom⟩
      rw [if_pos hex, if_pos houter]
    · rw [if_neg hex]
      by_cases hr : r.2.1 / 0x2000000 ≤ b ∧ b < r.2.1 / 0x2000000 + r.2.2 / 0x2000000
      · have houter : ∃ rom ∈ r :: rest,
            rom.2.1 / 0x2000000 ≤ b ∧ b < rom.2.1 / 0x2000000 + rom.2.2 / 0x2000000 :=
          ⟨r, List.mem_cons_self r rest, hr⟩
        rw [if_pos ⟨hr.1, hr.2, hblen⟩, if_pos houter]
      · have houter : ¬ ∃ rom ∈ r :: rest,
            rom.2.1 / 0x2000000 ≤ b ∧ b < rom.2.1 / 0x2000000 + rom.2.2 / 0x2000000 := by
          intro hcon
          rcases hcon with ⟨rom, hm, hrom⟩
          rcases List.mem_cons.mp hm with h1 | h1
          · exact hr (h1 ▸ hrom)
          · exact hex ⟨rom, h1, hrom⟩
        rw [if_neg (fun hcon => hr ⟨hcon.1, hcon.2.1⟩), if_neg houter]

theorem block_map_head (max_blocks : Nat) (roms : List (Nat × Nat × Nat))
    (hmb : 1 ≤ max_blocks) :
    (block_map max_blocks roms)[0]? = some true := by
  rw [block_map_getElem? max_blocks roms 0 (by omega) hmb]
  simp

/-!
Helper lemmas about the stable descending sort.
-/

theorem mem_insertDesc {x y : Nat × Nat} :
    ∀ {l : List (Nat × Nat)}, y ∈ insertDesc x l ↔ y = x ∨ y ∈ l
  | [] => by simp [insertDesc]
  | z :: zs => by
    have ih := @mem_insertDesc x y zs
    by_cases hc : z.2 ≤ x.2
    · simp [insertDesc, hc]
    · simp only [insertDesc, if_neg hc, List.mem_cons, ih]
      tauto

theorem insertDesc_perm (x : Nat × Nat) : ∀ l : List (Nat × Nat), List.Perm (insertDesc x l) (x :: l)
  | [] => by simp [insertDesc]
  | z :: zs => by
    by_cases hc : z.2 ≤ x.2
    · simp [insertDesc, hc]
    · simp only [insertDesc, if_neg hc]
      exact ((insertDesc_perm x zs).cons z).trans (List.Perm.swap x z zs)

theorem sortDesc_perm : ∀ l : List (Nat × Nat), List.Perm (sortDesc l) l
  | [] => .nil
  | x :: xs => (insertDesc_perm x (sortDesc xs)).trans ((sortDesc_perm xs).cons x)

theorem sortedDesc_insertDesc (x : Nat × Nat) :
    ∀ l : List (Nat × Nat), l.Pairwise (fun a b => b.2 ≤ a.2) →
      (insertDesc x l).Pairwise (fun a b => b.2 ≤ a.2)
  | [], _ => by simp [insertDesc]
  | z :: zs, h => by
    rcases List.pairwise_cons.mp h with ⟨hz, hzs⟩
    by_cases hc : z.2 ≤ x.2
    · simp only [insertDesc, if_pos hc]
      refine List.pairwise_cons.mpr ⟨?_, h⟩
      intro y hy
      rcases List.mem_cons.mp hy with h1 | h1
      · subst h1; exact hc
      · exact Nat.le_trans (hz y h1) hc
    · simp only [insertDesc, if_neg hc]
      refine List.pairwise_cons.mpr ⟨?_, sortedDesc_insertDesc x zs hzs⟩
      intro y hy
      rcases mem_insertDesc.mp hy with h1 | h1
      · subst h1; omega
      · exact hz y h1

theorem sortDesc_sorted : ∀ l : List (Nat × Nat),
    (sortDesc l).Pairwise (fun a b => b.2 ≤ a.2)
  | [] => .nil
  | x :: xs => sortedDesc_insertDesc x (sortDesc xs) (sortDesc_sorted xs)

theorem pairwise_insertDesc {P : Nat × Nat → Nat × Nat → Prop} (x : Nat × Nat)
    (hvac : ∀ y, ¬ y.2 ≤ x.2 → P y x) :
    ∀ l : List (Nat × Nat), l.Pairwise P → (∀ y ∈ l, P x y) →
      (insertDesc x l).Pairwise P
  | [], _, _ => by simp [insertDesc]
  | z :: zs, h, hx => by
    rcases List.pairwise_cons.mp h with ⟨hz, hzs⟩
    by_cases hc : z.2 ≤ x.2
    · simp only [insertDesc, if_pos hc]
      exact List.pairwise_cons.mpr ⟨hx, h⟩
    · simp only [insertDesc, if_neg hc]
      refine List.pairwise_cons.mpr ⟨?_, ?_⟩
      · intro y hy
        rcases mem_insertDesc.mp hy with h1 | h1
        · subst h1; exact hvac z hc
        · exact hz y h1
      · exact pairwise_insertDesc x hvac zs hzs
          (fun y hy => hx y (List.mem_cons_of_mem z hy))

/-- Stability of the descending sort on the tie-breaking order: if the
input list has strictly increasing start addresses, then in the sorted
list any two regions of equal length keep their input (ascending start)
order. -/
theorem sortDesc_ties : ∀ l : List (Nat × Nat),
    l.Pairwise (fun a b => a.1 < b.1) →
    (sortDesc l).Pairwise (fun a b => a.2 = b.2 → a.1 < b.1)
  | [], _ => .nil
  | x :: xs, h => by
    rcases List.pairwise_cons.mp h with ⟨hx, hxs⟩
    apply pairwise_insertDesc x
    · intro y hy heq
      omega
    · exact sortDesc_ties xs hxs
    · intro y hy
      have hmem : y ∈ xs := (sortDesc_perm xs).mem_iff.mp hy
      intro _
      exact hx y hmem

theorem count_true_add_count_false (l : List Bool) :
    l.count true + l.count false = l.length := by
  induction l with
  | nil => rfl
  | cons b rest ih =>
    cases b <;> simp [List.count_cons] <;> omega

/-- Claim C2: for every valid slot table (all recorded roms within the
device), `update_rom_list` builds a block map in which block 0 is
occupied, the free-region scan yields exactly the maximal runs of blocks
not spanned by any surfaced slot record, and the free-region lengths sum
to `total_blocks - occupied_blocks` (also after the final descending sort
and scaling to sectors, where the sum is scaled by `0x10000`). -/
theorem C2_confirmed (raw : List Nat) (disk_size : Nat)
    (hds : 0x2000000 ≤ disk_size)
    (hvalid : ∀ rom ∈ update_positions raw,
      rom.2.1 / 0x2000000 + rom.2.2 / 0x2000000 ≤ disk_size / 0x2000000) :
    (block_map (disk_size / 0x2000000) (update_positions raw))[0]? = some true ∧
    (block_map (disk_size / 0x2000000) (update_positions raw)).length
      = disk_size / 0x2000000 ∧
    freeScan (block_map (disk_size / 0x2000000) (update_positions raw)) 0 0
      = maximalRuns (block_map (disk_size / 0x2000000) (update_positions raw)) 0 ∧
    (∀ b, b < disk_size / 0x2000000 →
      ((block_map (disk_size / 0x2000000) (update_positions raw))[b]? = some true ↔
        b = 0 ∨ ∃ rom ∈ update_positions raw,
          rom.2.1 / 0x2000000 ≤ b ∧ b < rom.2.1 / 0x2000000 + rom.2.2 / 0x2000000)) ∧
    ((freeScan (block_map (disk_size / 0x2000000) (update_positions raw)) 0 0).map
        Prod.snd).sum
      = disk_size / 0x2000000
        - (block_map (disk_size / 0x2000000) (update_positions raw)).count true ∧
    (((update_rom_list raw disk_size).2).map Prod.snd).sum
      = 0x10000 * (disk_size / 0x2000000
          - (block_map (disk_size / 0x2000000) (update_positions raw)).count true) := by
  have hmb : 1 ≤ disk_size / 0x2000000 := Nat.le_div_iff_mul_le (by omega) |>.mpr (by omega)
  have hhead := block_map_head (disk_size / 0x2000000) (update_positions raw) hmb
  have hlen := block_map_length (disk_size / 0x2000000) (update_positions raw) hmb
  have hscan : freeScan (block_map (disk_size / 0x2000000) (update_positions raw)) 0 0
      = maximalRuns (block_map (disk_size / 0x2000000) (update_positions raw)) 0 := by
    cases hbm : block_map (disk_size / 0x2000000) (update_positions raw) with
    | nil => rw [hbm] at hhead; simp at hhead
    | cons b rest =>
      rw [hbm] at hhead
      simp at hhead
      subst hhead
      exact freeScan_eq_maximalRuns rest
  have hsum : ((freeScan (block_map (disk_size / 0x2000000) (update_positions raw)) 0 0).map
      Prod.snd).sum
      = disk_size / 0x2000000
        - (block_map (disk_size / 0x2000000) (update_positions raw)).count true := by
    rw [hscan, maximalRuns_sum]
    have := count_true_add_count_false (block_map (disk_size / 0x2000000) (update_positions raw))
    omega
  refine ⟨hhead, hlen, hscan, ?_, hsum, ?_⟩
  · intro b hb
    rw [block_map_getElem? (disk_size / 0x2000000) (update_positions raw) b hb hmb]
    by_cases hex : b = 0 ∨ ∃ rom ∈ update_positions raw,
        rom.2.1 / 0x2000000 ≤ b ∧ b < rom.2.1 / 0x2000000 + rom.2.2 / 0x2000000
    · rw [if_pos hex]
      simpa using hex
    · rw [if_neg hex]
      simpa using hex
  · have hmap : ((update_rom_list raw disk_size).2).map Prod.snd
        = ((sortDesc (freeScan (block_map (disk_size / 0x2000000) (update_positions raw)) 0 0)).map
            Prod.snd).map (fun v => v * 0x10000) := by
      simp [update_rom_list, List.map_map]
    rw [hmap]
    have hperm : ((sortDesc (freeScan (block_map (disk_size / 0x2000000)
        (update_positions raw)) 0 0)).map Prod.snd).sum
        = ((freeScan (block_map (disk_size / 0x2000000) (update_positions raw)) 0 0).map
            Prod.snd).sum :=
      ((sortDesc_perm _).map Prod.snd).sum_eq
    have hmul : ∀ l : List Nat, (l.map (fun v => v * 0x10000)).sum = 0x10000 * l.sum := by
      intro l
      induction l with
      | nil => simp
      | cons v rest ih => simp [ih]; ring
    rw [hmul, hperm, hsum]

theorem block_map_head0 (max_blocks : Nat) (roms : List (Nat × Nat × Nat)) :
    (block_map max_blocks roms)[0]? = some true := by
  suffices hgen : ∀ (l : List (Nat × Nat × Nat)) (bm : List Bool), bm[0]? = some true →
      (l.foldl (fun bm rom =>
        markUsed bm (rom.2.1 / 0x2000000) (rom.2.1 / 0x2000000 + rom.2.2 / 0x2000000)) bm)[0]?
        = some true by
    exact hgen roms _ (by simp)
  intro l
  induction l with
  | nil => intro bm h; exact h
  | cons r rest ih =>
    intro bm h
    simp only [List.foldl_cons]
    apply ih
    rw [markUsed_getElem?]
    by_cases hc : r.2.1 / 0x2000000 ≤ 0 ∧ 0 < r.2.1 / 0x2000000 + r.2.2 / 0x2000000
        ∧ 0 < bm.length
    · rw [if_pos hc]
    · rw [if_neg hc]
      exact h

/-- Characterization of the backwards scan of the descending-sorted,
sector-scaled free-region list in `write_rom`: failure happens exactly
when no region is large enough, and a successful pick is a best fit whose
start is the largest among tied best fits. -/
theorem allocateSpec (S fb : List (Nat × Nat)) (n : Nat)
    (hfb : fb = S.map (fun p => (p.1 * 0x10000, p.2 * 0x10000)))
    (hsorted : S.Pairwise (fun a b => b.2 ≤ a.2))
    (hties : S.Pairwise (fun a b => a.2 = b.2 → a.1 < b.1))
    (hpos : ∀ r ∈ S, 1 ≤ r.1) :
    (write_rom_allocate fb n = .error .insufficientSpace ↔ ∀ r ∈ fb, r.2 < n) ∧
    (∀ s, write_rom_allocate fb n = .ok s →
      ∃ l, (s, l) ∈ fb ∧ n ≤ l ∧ (∀ r ∈ fb, n ≤ r.2 → l ≤ r.2) ∧
        (∀ r ∈ fb, n ≤ r.2 → r.2 = l → r.1 ≤ s)) := by
  subst hfb
  cases hfind : S.reverse.find? ((fun fb => decide (n ≤ fb.2)) ∘
      (fun p => (p.1 * 0x10000, p.2 * 0x10000))) with
  | none =>
    have hcompute : write_rom_allocate
        (S.map (fun p => (p.1 * 0x10000, p.2 * 0x10000))) n
        = .error .insufficientSpace := by
      unfold write_rom_allocate allocate_start
      rw [← List.map_reverse, List.find?_map, hfind]
      rfl
    have hall := List.find?_eq_none.mp hfind
    constructor
    · rw [hcompute]
      constructor
      · intro _ r hr
        rcases List.mem_map.mp hr with ⟨q, hq, hscale⟩
        subst hscale
        have := hall q (List.mem_reverse.mpr hq)
        simp at this
        show q.2 * 0x10000 < n
        omega
      · intro _
        rfl
    · intro s hs
      rw [hcompute] at hs
      exact Except.noConfusion hs
  | some r =>
    have hp : n ≤ r.2 * 0x10000 := by
      have := List.find?_some hfind
      simpa using this
    have hrS : r ∈ S := List.mem_reverse.mp (List.mem_of_find?_eq_some hfind)
    have hr1 : 1 ≤ r.1 := hpos r hrS
    have hne : ¬ r.1 * 0x10000 = 0 := by positivity
    have hcompute : write_rom_allocate
        (S.map (fun p => (p.1 * 0x10000, p.2 * 0x10000))) n
        = .ok (r.1 * 0x10000) := by
      unfold write_rom_allocate allocate_start
      rw [← List.map_reverse, List.find?_map, hfind]
      simp [hne]
    rcases (List.find?_eq_some.mp hfind) with ⟨hpr, as, bs, hsplit, hfail⟩
    have hS_eq : S = bs.reverse ++ r :: as.reverse := by
      have := congrArg List.reverse hsplit
      simpa [List.reverse_append] using this
    have hdecomp : ∀ q ∈ S, q ∈ bs.reverse ∨ q = r ∨ q ∈ as.reverse := by
      intro q hq
      rw [hS_eq] at hq
      rcases List.mem_append.mp hq with h1 | h1
      · exact Or.inl h1
      · rcases List.mem_cons.mp h1 with h2 | h2
        · exact Or.inr (Or.inl h2)
        · exact Or.inr (Or.inr h2)
    have hbefore_sorted : ∀ q ∈ bs.reverse, r.2 ≤ q.2 := by
      intro q hq
      rw [hS_eq] at hsorted
      rcases List.pairwise_append.mp hsorted with ⟨_, _, hcross⟩
      exact hcross q hq r (List.mem_cons_self r as.reverse)
    have hbefore_ties : ∀ q ∈ bs.reverse, q.2 = r.2 → q.1 < r.1 := by
      intro q hq
      rw [hS_eq] at hties
      rcases List.pairwise_append.mp hties with ⟨_, _, hcross⟩
      exact hcross q hq r (List.mem_cons_self r as.reverse)
    have hfail_n : ∀ q ∈ as.reverse, q.2 * 0x10000 < n := by
      intro q hq
      have := hfail q (List.mem_reverse.mp hq)
      simp at this
      omega
    constructor
    · rw [hcompute]
      constructor
      · intro hcon
        exact Except.noConfusion hcon
      · intro hall
        have := hall (r.1 * 0x10000, r.2 * 0x10000)
          (List.mem_map.mpr ⟨r, hrS, rfl⟩)
        simp at this
        omega
    · intro s hs
      rw [hcompute] at hs
      have hs_eq : s = r.1 * 0x10000 := by
        have := Except.ok.inj hs
        omega
      subst hs_eq
      refine ⟨r.2 * 0x10000, List.mem_map.mpr ⟨r, hrS, rfl⟩, hp, ?_, ?_⟩
      · intro x hx hnx
        rcases List.mem_map.mp hx with ⟨q, hq, hscale⟩
        subst hscale
        simp only at hnx ⊢
        rcases hdecomp q hq with h1 | h1 | h1
        · have := hbefore_sorted q h1
          omega
        · subst h1; omega
        · have := hfail_n q h1
          omega
      · intro x hx hnx hxl
        rcases List.mem_map.mp hx with ⟨q, hq, hscale⟩
        subst hscale
        simp only at hnx hxl ⊢
        rcases hdecomp q hq with h1 | h1 | h1
        · have h2 := hbefore_ties q h1 (by omega)
          omega
        · subst h1; omega
        · have := hfail_n q h1
          omega

/-- Claim C1 (amended): for every free-region list produced by the
block-map rebuild (sorted by descending length) and every requested
sector count `n`, allocation in `write_rom` scans the descending-sorted
list from the tail and returns the start of the first region whose length
is at least `n` (best fit), with ties among equal-length adequate regions
broken in favor of the region appearing *latest* in the ascending address
scan (the chosen start is the largest among tied candidates); if no free
region has length at least `n`, the operation fails with
`InsufficientSpace`. -/
theorem C1_amended (raw : List Nat) (disk_size : Nat) (n : Nat)
    (hds : 0x2000000 ≤ disk_size)
    (hvalid : ∀ rom ∈ update_positions raw,
      rom.2.1 / 0x2000000 + rom.2.2 / 0x2000000 ≤ disk_size / 0x2000000) :
    (write_rom_allocate (update_rom_list raw disk_size).2 n = .error .insufficientSpace ↔
      ∀ r ∈ (update_rom_list raw disk_size).2, r.2 < n) ∧
    (∀ s, write_rom_allocate (update_rom_list raw disk_size).2 n = .ok s →
      ∃ l, (s, l) ∈ (update_rom_list raw disk_size).2 ∧ n ≤ l ∧
        (∀ r ∈ (update_rom_list raw disk_size).2, n ≤ r.2 → l ≤ r.2) ∧
        (∀ r ∈ (update_rom_list raw disk_size).2, n ≤ r.2 → r.2 = l → r.1 ≤ s)) := by
  have hbm0 := block_map_head0 (disk_size / 0x2000000) (update_positions raw)
  have hruns_props :
      (freeScan (block_map (disk_size / 0x2000000) (update_positions raw)) 0 0).Pairwise
        (fun a b => a.1 < b.1) ∧
      (∀ r ∈ freeScan (block_map (disk_size / 0x2000000) (update_positions raw)) 0 0,
        1 ≤ r.1) := by
    cases hbm : block_map (disk_size / 0x2000000) (update_positions raw) with
    | nil => rw [hbm] at hbm0; simp at hbm0
    | cons b rest =>
      rw [hbm] at hbm0
      simp at hbm0
      subst hbm0
      rw [freeScan_eq_maximalRuns rest, maximalRuns_cons_true]
      exact ⟨(maximalRuns_bounds rest 1).2,
        fun r hr => ((maximalRuns_bounds rest 1).1 r hr).1⟩
  have hfb : (update_rom_list raw disk_size).2 =
      (sortDesc (freeScan (block_map (disk_size / 0x2000000) (update_positions raw)) 0 0)).map
        (fun p => (p.1 * 0x10000, p.2 * 0x10000)) := by
    simp [update_rom_list]
  exact allocateSpec _ _ n hfb
    (sortDesc_sorted _)
    (sortDesc_ties _ hruns_props.1)
    (fun r hr => hruns_props.2 r ((sortDesc_perm _).mem_iff.mp hr))

/-- Claim C1 (counterexample): on a 7-block disk with occupied blocks 3
and 6 there are two free regions of equal length 2 (sectors 0x20000)
starting at blocks 1 and 4 (sectors 0x10000 and 0x40000); for a request
of 0x20000 sectors the code picks the region at sector 0x40000 (the
*latest* in the ascending scan), not the earliest at 0x10000 as the claim
states. -/
theorem C1_counterexample :
    write_rom_allocate (update_rom_list tieTable 0xE000000).2 0x20000 = .ok 0x40000 ∧
    write_rom_allocate (update_rom_list tieTable 0xE000000).2 0x20000 ≠ .ok 0x10000 := by
  constructor <;> decide

/-- Claim C1 (witness): the amended allocation theorem applied to the
concrete two-rom slot table. -/
theorem C1_witness :
    (0x2000000 ≤ 0xE000000 ∧
      ∀ rom ∈ update_positions tieTable,
        rom.2.1 / 0x2000000 + rom.2.2 / 0x2000000 ≤ 0xE000000 / 0x2000000) ∧
    ((write_rom_allocate (update_rom_list tieTable 0xE000000).2 0x20000
        = .error .insufficientSpace ↔
      ∀ r ∈ (update_rom_list tieTable 0xE000000).2, r.2 < 0x20000) ∧
    (∀ s, write_rom_allocate (update_rom_list tieTable 0xE000000).2 0x20000 = .ok s →
      ∃ l, (s, l) ∈ (update_rom_list tieTable 0xE000000).2 ∧ 0x20000 ≤ l ∧
        (∀ r ∈ (update_rom_list tieTable 0xE000000).2, 0x20000 ≤ r.2 → l ≤ r.2) ∧
        (∀ r ∈ (update_rom_list tieTable 0xE000000).2, 0x20000 ≤ r.2 → r.2 = l →
          r.1 ≤ s))) :=
  ⟨⟨by decide, by decide⟩, C1_amended tieTable 0xE000000 0x20000 (by decide) (by decide)⟩

/-- Claim C2 (witness): the block-map invariants applied to a freshly
formatted (empty) 1 GiB card. -/
theorem C2_witness :
    (0x2000000 ≤ 0x40000000 ∧
      ∀ rom ∈ update_positions emptyTable,
        rom.2.1 / 0x2000000 + rom.2.2 / 0x2000000 ≤ 0x40000000 / 0x2000000) ∧
    ((block_map (0x40000000 / 0x2000000) (update_positions emptyTable))[0]? = some true ∧
    (block_map (0x40000000 / 0x2000000) (update_positions emptyTable)).length
      = 0x40000000 / 0x2000000 ∧
    freeScan (block_map (0x40000000 / 0x2000000) (update_positions emptyTable)) 0 0
      = maximalRuns (block_map (0x40000000 / 0x2000000) (update_positions emptyTable)) 0 ∧
    (∀ b, b < 0x40000000 / 0x2000000 →
      ((block_map (0x40000000 / 0x2000000) (update_positions emptyTable))[b]? = some true ↔
        b = 0 ∨ ∃ rom ∈ update_positions emptyTable,
          rom.2.1 / 0x2000000 ≤ b ∧ b < rom.2.1 / 0x2000000 + rom.2.2 / 0x2000000)) ∧
    ((freeScan (block_map (0x40000000 / 0x2000000) (update_positions emptyTable)) 0 0).map
        Prod.snd).sum
      = 0x40000000 / 0x2000000
        - (block_map (0x40000000 / 0x2000000) (update_positions emptyTable)).count true ∧
    (((update_rom_list emptyTable 0x40000000).2).map Prod.snd).sum
      = 0x10000 * (0x40000000 / 0x2000000
          - (block_map (0x40000000 / 0x2000000) (update_positions emptyTable)).count true)) :=
  ⟨⟨by decide, by decide⟩, C2_confirmed emptyTable 0x40000000 (by decide) (by decide)⟩

/-- Claim C5 (counterexample): on a table whose record 0 is the sentinel
and whose record 1 is occupied with `(start_sector, size_sector) = (1, 1)`,
the surfaced record is assigned slot index 0 (its rank among surfaced
records), not its table position 1 as the claim states. -/
theorem C5_counterexample :
    update_positions gapTable ≠ [(1, 512, 512)] ∧
    update_positions gapTable = [(0, 512, 512)] ∧
    decodeRecord gapTable 1 = (1, 1) := by
  refine ⟨?_, ?_, ?_⟩ <;> decide

/-!
ROM data transfer: the bulk-copy part of `write_rom` and the extraction
`dump_rom`.
-/

/-- Chunked sequential write of the rom file bytes to the disk, 8 MiB at
a time (`while written < rom_size: chunk = romfp.read(1024*1024*8);
diskfp.write(chunk); ...`). -/
def writeRomChunks (d : Nat → Nat) (pos : Nat) (data : List Nat) : Nat → Nat :=
  if data = [] then d
  else writeRomChunks (writeBytes d pos (data.take 0x800000))
    (pos + (data.take 0x800000).length) (data.drop 0x800000)
termination_by data.length
decreasing_by
  rename_i hne
  have hlen : 0 < data.length := List.length_pos.mpr hne
  simp
  omega

/-- Disk state after the data-transfer phase of `write_rom`: the rom
bytes are copied to `start_block * 0x200`, the slot record
`struct.pack("ii", start_block, rom_blocks)` is written at
`free_slot * 0x8`, a fresh 1 MiB savegame staging region of 0xFF is
written at `0x100000 * (1 + len(rom_list))`, and the 0x200-byte header
template is written at `start_block * 0x200 + 0x1400`. -/
def write_rom_disk (d : Nat → Nat) (start_block free_slot rom_count : Nat)
    (rom card_data : List Nat) : Nat → Nat :=
  let d1 := writeRomChunks d (start_block * 0x200) rom
  let d2 := writeBytes d1 (free_slot * 0x8)
    (packU32 start_block ++ packU32 (rom.length / 0x200))
  let d3 := writeBytes d2 (0x100000 * (1 + rom_count)) (List.replicate 0x100000 0xFF)
  writeBytes d3 (start_block * 0x200 + 0x1400) card_data

/-- Read loop of `dump_rom`: 1 MiB chunks are read from the disk and
appended to the output file until at least `rom_size` bytes were
transferred (`while written < rom_size: chunk = self.diskfp.read(1024*1024);
outputfp.write(chunk); written = written + len(chunk)`). -/
def dumpLoop (d : Nat → Nat) (pos rom_size written : Nat) : List Nat :=
  if written < rom_size then
    readBytes d pos 0x100000 ++ dumpLoop d (pos + 0x100000) rom_size (written + 0x100000)
  else []
termination_by rom_size - written
decreasing_by omega

/-- Output file produced by `dump_rom` for a rom recorded at byte offset
`start` with recorded byte size `rom_size`: the chunked copy followed by
`outputfp.seek(0x1400); outputfp.write(bytearray([0xff]*0x200))`. -/
def dump_rom_bytes (d : Nat → Nat) (start rom_size : Nat) : List Nat :=
  overwriteList (dumpLoop d start rom_size 0) 0x1400 (List.replicate 0x200 0xFF)

/-- Extraction operation `dump_rom`: requires a formatted disk
(`fail_on_non_sky3ds`), then evaluates `self.rom_list[slot]` — an
out-of-range subscript raises a bare Python `IndexError`, there is no
explicit slot check — and dumps `rom_size` bytes from `start`. -/
def dump_rom (formatted : Bool) (d : Nat → Nat) (rom_list : List (Nat × Nat × Nat))
    (slot : Nat) : Except DiskError (List Nat) :=
  if formatted = false then .error .notFormatted
  else
    match rom_list[slot]? with
    | none => .error .indexError
    | some rom => .ok (dump_rom_bytes d rom.2.1 rom.2.2)

/-- Specification-side description of the expected extraction output: the
original ROM bytes with the range [0x1400, 0x1600) replaced by 0xFF. -/
def stripHeader (rom : List Nat) : List Nat :=
  rom.take 0x1400 ++ List.replicate 0x200 0xFF ++ rom.drop 0x1600

/-!
Helper lemmas for the round-trip claim C3.
-/

theorem getD_lt (l : List Nat) (i : Nat) (h : i < l.length) : l.getD i 0 = l[i] := by
  simp [List.getD_eq_getElem?_getD, List.getElem?_eq_getElem h]

theorem packU32_length (v : Nat) : (packU32 v).length = 4 := rfl

theorem writeBytes_nil (d : Nat → Nat) (pos : Nat) : writeBytes d pos [] = d := by
  funext a
  simp [writeBytes]

theorem writeBytes_append (d : Nat → Nat) (pos : Nat) (a b : List Nat) :
    writeBytes (writeBytes d pos a) (pos + a.length) b = writeBytes d pos (a ++ b) := by
  funext x
  simp only [writeBytes, List.length_append]
  by_cases h1 : pos + a.length ≤ x ∧ x < pos + a.length + b.length
  · rw [if_pos h1, if_pos (by omega)]
    rw [List.getD_eq_getElem?_getD, List.getD_eq_getElem?_getD,
      List.getElem?_append_right (by omega)]
    congr 2
    omega
  · rw [if_neg h1]
    by_cases h2 : pos ≤ x ∧ x < pos + a.length
    · rw [if_pos h2, if_pos (by omega)]
      rw [List.getD_eq_getElem?_getD, List.getD_eq_getElem?_getD,
        List.getElem?_append_left (by omega)]
    · rw [if_neg h2, if_neg (by omega)]

theorem writeRomChunks_eq (data : List Nat) (d : Nat → Nat) (pos : Nat) :
    writeRomChunks d pos data = writeBytes d pos data := by
  by_cases hd : data = []
  · subst hd
    rw [writeRomChunks]
    simp [writeBytes_nil]
  · conv_lhs => rw [writeRomChunks]
    rw [if_neg hd, writeRomChunks_eq (data.drop 0x800000), writeBytes_append,
      List.take_append_drop]
termination_by data.length
decreasing_by
  have hlen : 0 < data.length := List.length_pos.mpr hd
  simp
  omega

theorem readBytes_length (d : Nat → Nat) (pos n : Nat) :
    (readBytes d pos n).length = n := by
  simp [readBytes]

theorem readBytes_getElem (d : Nat → Nat) (pos n i : Nat)
    (h : i < (readBytes d pos n).length) :
    (readBytes d pos n)[i] = d (pos + i) := by
  simp [readBytes]

theorem readBytes_append (d : Nat → Nat) (pos m n : Nat) :
    readBytes d pos (m + n) = readBytes d pos m ++ readBytes d (pos + m) n := by
  apply List.ext_getElem
  · simp [readBytes_length]
  · intro i h1 h2
    rw [readBytes_getElem]
    by_cases hi : i < m
    · rw [List.getElem_append_left (by rw [readBytes_length]; exact hi),
        readBytes_getElem]
    · rw [List.getElem_append_right (by rw [readBytes_length]; omega),
        readBytes_getElem, readBytes_length]
      congr 1
      omega

theorem writeBytes_value_in (d : Nat → Nat) (pos : Nat) (data : List Nat) (a : Nat)
    (h : pos ≤ a ∧ a < pos + data.length) :
    writeBytes d pos data a = data.getD (a - pos) 0 := by
  simp [writeBytes, h]

theorem writeBytes_value_out (d : Nat → Nat) (pos : Nat) (data : List Nat) (a : Nat)
    (h : ¬ (pos ≤ a ∧ a < pos + data.length)) :
    writeBytes d pos data a = d a := by
  simp only [writeBytes, if_neg h]

theorem dumpLoop_eq (k : Nat) :
    ∀ (d : Nat → Nat) (pos rom_size written : Nat),
      written ≤ rom_size → rom_size - written = 0x100000 * k →
      dumpLoop d pos rom_size written = readBytes d pos (rom_size - written) := by
  induction k with
  | zero =>
    intro d pos rs w h1 h2
    rw [dumpLoop, if_neg (by omega)]
    have h3 : rs - w = 0 := by omega
    rw [h3]
    simp [readBytes]
  | succ k ih =>
    intro d pos rs w h1 h2
    rw [dumpLoop, if_pos (by omega)]
    rw [ih d (pos + 0x100000) rs (w + 0x100000) (by omega) (by omega)]
    have h3 : rs - w = 0x100000 + (rs - (w + 0x100000)) := by omega
    rw [h3, readBytes_append]

theorem write_rom_disk_value (d : Nat → Nat) (start_block free_slot rom_count : Nat)
    (rom card_data : List Nat) (a : Nat)
    (hcard : card_data.length = 0x200)
    (hstart : 0x10000 ≤ start_block)
    (hcount : rom_count ≤ 30)
    (hslot : free_slot < 31)
    (ha1 : start_block * 0x200 ≤ a) (ha2 : a < start_block * 0x200 + rom.length) :
    write_rom_disk d start_block free_slot rom_count rom card_data a =
      if start_block * 0x200 + 0x1400 ≤ a ∧ a < start_block * 0x200 + 0x1600 then
        card_data.getD (a - (start_block * 0x200 + 0x1400)) 0
      else rom.getD (a - start_block * 0x200) 0 := by
  have hrange_card : (start_block * 0x200 + 0x1400 ≤ a ∧
      a < start_block * 0x200 + 0x1400 + card_data.length) ↔
      (start_block * 0x200 + 0x1400 ≤ a ∧ a < start_block * 0x200 + 0x1600) := by
    rw [hcard]
  have hsg : ¬ (0x100000 * (1 + rom_count) ≤ a ∧
      a < 0x100000 * (1 + rom_count) + (List.replicate 0x100000 (0xFF:Nat)).length) := by
    simp only [List.length_replicate]
    omega
  have hslot8 : ¬ (free_slot * 0x8 ≤ a ∧
      a < free_slot * 0x8 + (packU32 start_block ++ packU32 (rom.length / 0x200)).length) := by
    simp only [List.length_append, packU32_length]
    omega
  have hrom : start_block * 0x200 ≤ a ∧ a < start_block * 0x200 + rom.length :=
    ⟨ha1, ha2⟩
  unfold write_rom_disk
  rw [writeRomChunks_eq]
  by_cases hc : start_block * 0x200 + 0x1400 ≤ a ∧ a < start_block * 0x200 + 0x1600
  · rw [if_pos hc, writeBytes_value_in _ _ _ _ (hrange_card.mpr hc)]
  · rw [if_neg hc, writeBytes_value_out _ _ _ _ (fun hcon => hc (hrange_card.mp hcon)),
      writeBytes_value_out _ _ _ _ hsg, writeBytes_value_out _ _ _ _ hslot8,
      writeBytes_value_in _ _ _ _ hrom]

theorem read_after_write (d : Nat → Nat) (start_block free_slot rom_count : Nat)
    (rom card_data : List Nat)
    (hlen : rom.length % 0x100000 = 0) (hpos : 0 < rom.length)
    (hcard : card_data.length = 0x200)
    (hstart : 0x10000 ≤ start_block)
    (hcount : rom_count ≤ 30)
    (hslot : free_slot < 31) :
    readBytes (write_rom_disk d start_block free_slot rom_count rom card_data)
        (start_block * 0x200) rom.length
      = rom.take 0x1400 ++ card_data ++ rom.drop 0x1600 := by
  have hlen16 : 0x1600 ≤ rom.length := by omega
  have hA : readBytes (write_rom_disk d start_block free_slot rom_count rom card_data)
      (start_block * 0x200) 0x1400 = rom.take 0x1400 := by
    apply List.ext_getElem
    · rw [readBytes_length, List.length_take]
      omega
    · intro i h1 h2
      rw [readBytes_length] at h1
      rw [readBytes_getElem]
      rw [write_rom_disk_value d start_block free_slot rom_count rom card_data _
        hcard hstart hcount hslot (by omega) (by omega)]
      rw [if_neg (by omega), List.getElem_take]
      rw [show start_block * 0x200 + i - start_block * 0x200 = i from by omega]
      exact getD_lt rom i (by omega)
  have hC : readBytes (write_rom_disk d start_block free_slot rom_count rom card_data)
      (start_block * 0x200 + 0x1400) 0x200 = card_data := by
    apply List.ext_getElem
    · rw [readBytes_length, hcard]
    · intro i h1 h2
      rw [readBytes_length] at h1
      rw [readBytes_getElem]
      rw [write_rom_disk_value d start_block free_slot rom_count rom card_data _
        hcard hstart hcount hslot (by omega) (by omega)]
      rw [if_pos (by omega)]
      rw [show start_block * 0x200 + 0x1400 + i - (start_block * 0x200 + 0x1400) = i
        from by omega]
      exact getD_lt card_data i (by omega)
  have hB : readBytes (write_rom_disk d start_block free_slot rom_count rom card_data)
      (start_block * 0x200 + 0x1400 + 0x200) (rom.length - 0x1600) = rom.drop 0x1600 := by
    apply List.ext_getElem
    · rw [readBytes_length, List.length_drop]
    · intro i h1 h2
      rw [readBytes_length] at h1
      rw [readBytes_getElem]
      rw [write_rom_disk_value d start_block free_slot rom_count rom card_data _
        hcard hstart hcount hslot (by omega) (by omega)]
      rw [if_neg (by omega), List.getElem_drop]
      rw [show start_block * 0x200 + 0x1400 + 0x200 + i - start_block * 0x200
        = 0x1600 + i from by omega]
      exact getD_lt rom (0x1600 + i) (by omega)
  rw [show rom.length = 0x1400 + (0x200 + (rom.length - 0x1600)) from by omega]
  rw [readBytes_append, readBytes_append, hA, hC, hB, List.append_assoc]

/-- Claim C3 (amended): for every formatted device with a free slot and
enough free space, extracting immediately after adding yields the
original ROM with bytes [0x1400, 0x1600) replaced by 0xFF *provided the
ROM size is a positive multiple of 1 MiB* (true of real 3DS roms, which
are multiples of 32 MiB).  The extraction loop reads whole 1 MiB chunks
until the recorded size is reached, and the recorded size is the floor of
the byte size to a 512-byte sector, so for other sizes the output file is
longer than the ROM. -/
theorem C3_amended (d : Nat → Nat) (start_block free_slot rom_count : Nat)
    (rom card_data : List Nat)
    (hlen : rom.length % 0x100000 = 0) (hpos : 0 < rom.length)
    (hcard : card_data.length = 0x200)
    (hstart : 0x10000 ≤ start_block)
    (hcount : rom_count ≤ 30)
    (hslot : free_slot < 31) :
    dump_rom_bytes (write_rom_disk d start_block free_slot rom_count rom card_data)
        (start_block * 0x200) (rom.length / 0x200 * 0x200)
      = stripHeader rom := by
  have hL : rom.length / 0x200 * 0x200 = rom.length := by omega
  have hlen16 : 0x1600 ≤ rom.length := by omega
  unfold dump_rom_bytes
  rw [hL]
  rw [dumpLoop_eq (rom.length / 0x100000) _ _ _ 0 (by omega) (by omega)]
  rw [Nat.sub_zero]
  rw [read_after_write d start_block free_slot rom_count rom card_data
    hlen hpos hcard hstart hcount hslot]
  have hlenA : (rom.take 0x1400).length = 0x1400 := by
    rw [List.length_take]
    omega
  have h01 : ((rom.take 0x1400 ++ card_data) ++ rom.drop 0x1600).take 0x1400
      = rom.take 0x1400 := by
    rw [List.append_assoc]
    exact List.take_left' hlenA
  have h02 : ((rom.take 0x1400 ++ card_data) ++ rom.drop 0x1600).drop 0x1600
      = rom.drop 0x1600 := by
    apply List.drop_left'
    rw [List.length_append, hlenA, hcard]
  unfold overwriteList stripHeader
  simp only [List.length_replicate]
  rw [show (0x1400 + 0x200 : Nat) = 0x1600 from by norm_num]
  rw [h01, h02]

/-- Claim C3 (counterexample): for a ROM of 0x2000 bytes (a whole number
of 512-byte sectors but not a multiple of 1 MiB), the dump loop reads a
full 1 MiB chunk, so the extracted byte stream has length 0x100000 and is
not the 0x2000-byte ROM with bytes [0x1400, 0x1600) replaced by 0xFF. -/
theorem C3_counterexample :
    dump_rom_bytes
        (write_rom_disk (fun _ => 0) 0x10000 0 0 (List.replicate 0x2000 3)
          (List.replicate 0x200 7))
        (0x10000 * 0x200) (rom_blocks_of (List.replicate (0x2000:Nat) 3).length * 0x200)
      ≠ stripHeader (List.replicate 0x2000 3) := by
  intro hcon
  have hsize : rom_blocks_of (List.replicate (0x2000:Nat) 3).length * 0x200 = 0x2000 := by
    simp only [rom_blocks_of, List.length_replicate]
  rw [hsize] at hcon
  have h1 : (dump_rom_bytes
      (write_rom_disk (fun _ => 0) 0x10000 0 0 (List.replicate 0x2000 3)
        (List.replicate 0x200 7))
      (0x10000 * 0x200) 0x2000).length = 0x100000 := by
    unfold dump_rom_bytes overwriteList
    rw [dumpLoop, if_pos (by omega), dumpLoop, if_neg (by omega)]
    simp only [List.length_append, List.length_take, List.length_drop,
      List.length_replicate, readBytes_length, List.append_nil]
    omega
  have h2 : (stripHeader (List.replicate (0x2000:Nat) 3)).length = 0x2000 := by
    simp only [stripHeader, List.length_append, List.length_take, List.length_drop,
      List.length_replicate]
    omega
  rw [hcon, h2] at h1
  exact absurd h1 (by decide)

/-- Claim C3 (witness): the amended round trip applied to a 1 MiB ROM of
zero bytes written to block 1 of an empty disk. -/
theorem C3_witness :
    ((List.replicate 0x100000 (0:Nat)).length % 0x100000 = 0 ∧
     0 < (List.replicate 0x100000 (0:Nat)).length ∧
     (List.replicate 0x200 (7:Nat)).length = 0x200 ∧
     (0x10000:Nat) ≤ 0x10000 ∧ (0:Nat) ≤ 30 ∧ (0:Nat) < 31) ∧
    dump_rom_bytes
        (write_rom_disk (fun _ => 0) 0x10000 0 0 (List.replicate 0x100000 0)
          (List.replicate 0x200 7))
        (0x10000 * 0x200) ((List.replicate 0x100000 (0:Nat)).length / 0x200 * 0x200)
      = stripHeader (List.replicate 0x100000 0) :=
  ⟨⟨by simp only [List.length_replicate], by simp only [List.length_replicate]; omega,
      by simp only [List.length_replicate], by decide, by decide, by decide⟩,
    C3_amended (fun _ => 0) 0x10000 0 0 (List.replicate 0x100000 0)
      (List.replicate 0x200 7) (by simp only [List.length_replicate])
      (by simp only [List.length_replicate]; omega)
      (by simp only [List.length_replicate]) (by decide) (by decide) (by decide)⟩

/-!
Header template checksum (claim C7).  `titles.crc16` is an external
collaborator; it is modelled as an abstract function
`crc16 : List Nat → Nat` whose values fit in 16 bits.
-/

/-- Final checksum pass of `write_rom`:
`crc16 = titles.crc16(card_data[:-2]);
card_data[-2] = (crc16 & 0xFF00) >> 8; card_data[-1] = (crc16 & 0x00FF)`. -/
def set_checksum (crc16 : List Nat → Nat) (cd : List Nat) : List Nat :=
  let c := crc16 (cd.take (cd.length - 2))
  (cd.set (cd.length - 2) ((c &&& 0xFF00) >>> 8)).set (cd.length - 1) (c &&& 0x00FF)

/-- ASCII bytes of the string CTRIMAGE written into the synthesized
header. -/
def ctrImageBytes : List Nat := [0x43, 0x54, 0x52, 0x49, 0x4D, 0x41, 0x47, 0x45]

/-- Synthesized fallback header of `write_rom` (the `template_data` miss
path): fixed-offset reads from the rom file, the CRC16-derived pair
(each 16-bit value stored via `struct.pack("H", v)[::-1]`, i.e.
big-endian, here written as `[v / 0x100 % 0x100, v % 0x100]`), the
CTRIMAGE signature, the unique id, the name, and zero padding. -/
def fallback_card_data (crc16 : List Nat → Nat) (romf : Nat → Nat) : List Nat :=
  let c := crc16 (readBytes romf 0x1000 0x200)
  let c2 := ((c <<< 16) ||| (c ^^^ 0xFFFF)) &&& 0xFFFF
  readBytes romf 0x1244 0x4 ++ readBytes romf 0x1240 0x4 ++ readBytes romf 0x1248 0x4 ++
  [c / 0x100 % 0x100, c % 0x100] ++ [c2 / 0x100 % 0x100, c2 % 0x100] ++
  ctrImageBytes ++ List.replicate 0x8 0x00 ++
  List.replicate 0x10 0x00 ++ List.replicate 0x10 0x00 ++
  readBytes romf 0x1200 0x40 ++
  readBytes romf 0x1150 0x10 ++ List.replicate 0xf0 0x00 ++
  List.replicate 0x80 0x00

/-- Header override from `header.bin`
(`for byte in range(0x40): card_data[0x40+byte] = rom_header[byte]`). -/
def inject_header (cd rom_header : List Nat) : List Nat :=
  (List.range 0x40).foldl
    (fun cd byte => cd.set (0x40 + byte) (rom_header.getD byte 0)) cd

/-- Extra override applied for a `.3dz` input
(`for byte in range(0x4): card_data[0x4+byte] = rom_header[0x40+byte]`). -/
def inject_3dz_extra (cd rom_header : List Nat) : List Nat :=
  (List.range 0x4).foldl
    (fun cd byte => cd.set (0x4 + byte) (rom_header.getD (0x40 + byte) 0)) cd

/-- Checksum rewrite performed by `write_savegame` after replacing the
unique id: read the 0x200-byte header at `rom_start + 0x1400`, compute
`crc16` over its first 510 bytes, and store the two checksum bytes
big-endian at `rom_start + 0x1400 + 0x200 - 0x2`. -/
def write_savegame_crc (crc16 : List Nat → Nat) (d : Nat → Nat) (rom_start : Nat) :
    Nat → Nat :=
  let card := readBytes d (rom_start + 0x1400) 0x200
  let c := crc16 (card.take (card.length - 2))
  writeBytes d (rom_start + 0x1400 + 0x200 - 0x2) [(c &&& 0xFF00) >>> 8, c &&& 0x00FF]

theorem and_ff (c : Nat) : c &&& 0xFF = c % 0x100 := by
  simpa using Nat.and_pow_two_sub_one_eq_mod c 8

theorem and_ff00_shift (c : Nat) : (c &&& 0xFF00) >>> 8 = c / 0x100 % 0x100 := by
  apply Nat.eq_of_testBit_eq
  intro i
  rw [Nat.testBit_shiftRight, Nat.testBit_and]
  rw [show (0x100:Nat) = 2^8 from by norm_num, ← Nat.shiftRight_eq_div_pow]
  rw [show (2:Nat)^8 = 2^8 from rfl]
  rw [Nat.testBit_mod_two_pow, Nat.testBit_shiftRight]
  by_cases hi : i < 8
  · have h00 : (0xFF00:Nat).testBit (8+i) = true := by
      interval_cases i <;> decide
    rw [h00]
    simp [hi]
  · have h00 : (0xFF00:Nat).testBit (8+i) = false := by
      apply Nat.testBit_lt_two_pow
      calc (0xFF00:Nat) < 2^16 := by norm_num
        _ ≤ 2^(8+i) := Nat.pow_le_pow_right (by norm_num) (by omega)
    rw [h00]
    simp [hi]

theorem set_checksum_spec (crc16 : List Nat → Nat) (hc : ∀ l, crc16 l < 0x10000)
    (cd : List Nat) (hlen : cd.length = 0x200) :
    (set_checksum crc16 cd).length = 0x200 ∧
    (set_checksum crc16 cd).take 0x1FE = cd.take 0x1FE ∧
    (set_checksum crc16 cd).getD 0x1FE 0 * 0x100 + (set_checksum crc16 cd).getD 0x1FF 0
      = crc16 ((set_checksum crc16 cd).take 0x1FE) := by
  have hfin : set_checksum crc16 cd =
      (cd.set 0x1FE ((crc16 (cd.take 0x1FE) &&& 0xFF00) >>> 8)).set 0x1FF
        (crc16 (cd.take 0x1FE) &&& 0x00FF) := by
    unfold set_checksum
    rw [hlen]
  have hlen2 : (set_checksum crc16 cd).length = 0x200 := by
    rw [hfin]
    simp [List.length_set, hlen]
  have htake : (set_checksum crc16 cd).take 0x1FE = cd.take 0x1FE := by
    rw [hfin]
    apply List.ext_getElem
    · simp [List.length_set, hlen]
    · intro i h1 h2
      simp only [List.length_take, List.length_set, hlen] at h1
      rw [List.getElem_take, List.getElem_take]
      rw [List.getElem_set_ne (by omega), List.getElem_set_ne (by omega)]
  refine ⟨hlen2, htake, ?_⟩
  have hset_len : (cd.set 0x1FE ((crc16 (cd.take 0x1FE) &&& 0xFF00) >>> 8)).length
      = 0x200 := by
    simp [List.length_set, hlen]
  have hv1 : (set_checksum crc16 cd).getD 0x1FE 0
      = (crc16 (cd.take 0x1FE) &&& 0xFF00) >>> 8 := by
    rw [hfin, List.getD_eq_getElem?_getD, List.getElem?_set_ne (by omega),
      List.getElem?_set_self (by omega)]
    rfl
  have hv2 : (set_checksum crc16 cd).getD 0x1FF 0
      = crc16 (cd.take 0x1FE) &&& 0x00FF := by
    rw [hfin, List.getD_eq_getElem?_getD, List.getElem?_set_self (by rw [hset_len]; omega)]
    rfl
  rw [hv1, hv2, htake, and_ff, and_ff00_shift]
  have := hc (cd.take 0x1FE)
  omega

theorem fallback_card_data_length (crc16 : List Nat → Nat) (romf : Nat → Nat) :
    (fallback_card_data crc16 romf).length = 0x200 := by
  unfold fallback_card_data
  simp only [ctrImageBytes, List.length_append, readBytes_length, List.length_replicate,
    List.length_cons, List.length_nil]

theorem inject_header_length (cd hdr : List Nat) :
    (inject_header cd hdr).length = cd.length := by
  unfold inject_header
  generalize List.range 0x40 = idxs
  induction idxs generalizing cd with
  | nil => rfl
  | cons i rest ih => simp only [List.foldl_cons, ih, List.length_set]

theorem inject_3dz_extra_length (cd hdr : List Nat) :
    (inject_3dz_extra cd hdr).length = cd.length := by
  unfold inject_3dz_extra
  generalize List.range 0x4 = idxs
  induction idxs generalizing cd with
  | nil => rfl
  | cons i rest ih => simp only [List.foldl_cons, ih, List.length_set]

theorem readBytes_take (d : Nat → Nat) (pos m n : Nat) (h : m ≤ n) :
    (readBytes d pos n).take m = readBytes d pos m := by
  rw [show n = m + (n - m) from by omega, readBytes_append]
  exact List.take_left' (readBytes_length d pos m)

theorem write_savegame_crc_spec (crc16 : List Nat → Nat) (hc : ∀ l, crc16 l < 0x10000)
    (d : Nat → Nat) (rom_start : Nat) :
    readBytes (write_savegame_crc crc16 d rom_start) (rom_start + 0x1400) 0x1FE
      = readBytes d (rom_start + 0x1400) 0x1FE ∧
    (write_savegame_crc crc16 d rom_start) (rom_start + 0x1400 + 0x1FE) * 0x100 +
      (write_savegame_crc crc16 d rom_start) (rom_start + 0x1400 + 0x1FF)
      = crc16 (readBytes (write_savegame_crc crc16 d rom_start)
          (rom_start + 0x1400) 0x1FE) := by
  have hcard : (readBytes d (rom_start + 0x1400) 0x200).take
      ((readBytes d (rom_start + 0x1400) 0x200).length - 2)
      = readBytes d (rom_start + 0x1400) 0x1FE := by
    rw [readBytes_length]
    exact readBytes_take d (rom_start + 0x1400) 0x1FE 0x200 (by omega)
  have hunfold : write_savegame_crc crc16 d rom_start =
      writeBytes d (rom_start + 0x1400 + 0x200 - 0x2)
        [(crc16 (readBytes d (rom_start + 0x1400) 0x1FE) &&& 0xFF00) >>> 8,
         crc16 (readBytes d (rom_start + 0x1400) 0x1FE) &&& 0x00FF] := by
    unfold write_savegame_crc
    dsimp only
    rw [hcard]
  have hsame : readBytes (write_savegame_crc crc16 d rom_start) (rom_start + 0x1400) 0x1FE
      = readBytes d (rom_start + 0x1400) 0x1FE := by
    rw [hunfold]
    apply List.ext_getElem
    · simp [readBytes_length]
    · intro i h1 h2
      rw [readBytes_getElem, readBytes_getElem]
      rw [readBytes_length] at h1
      apply writeBytes_value_out
      simp only [List.length_cons, List.length_nil]
      omega
  refine ⟨hsame, ?_⟩
  rw [hsame]
  have hv1 : (write_savegame_crc crc16 d rom_start) (rom_start + 0x1400 + 0x1FE)
      = (crc16 (readBytes d (rom_start + 0x1400) 0x1FE) &&& 0xFF00) >>> 8 := by
    rw [hunfold]
    rw [writeBytes_value_in _ _ _ _ (by simp only [List.length_cons, List.length_nil]; omega)]
    rw [show rom_start + 0x1400 + 0x1FE - (rom_start + 0x1400 + 0x200 - 0x2) = 0
      from by omega]
    rfl
  have hv2 : (write_savegame_crc crc16 d rom_start) (rom_start + 0x1400 + 0x1FF)
      = crc16 (readBytes d (rom_start + 0x1400) 0x1FE) &&& 0x00FF := by
    rw [hunfold]
    rw [writeBytes_value_in _ _ _ _ (by simp only [List.length_cons, List.length_nil]; omega)]
    rw [show rom_start + 0x1400 + 0x1FF - (rom_start + 0x1400 + 0x200 - 0x2) = 1
      from by omega]
    rfl
  rw [hv1, hv2, and_ff, and_ff00_shift]
  have := hc (readBytes d (rom_start + 0x1400) 0x1FE)
  omega

/-- Claim C7: every 512-byte header template written to the device ends
with a 2-byte big-endian trailer equal to the CRC16 of the preceding 510
bytes: the final checksum pass of `write_rom` (applied after template
lookup, fallback synthesis, or the header.bin / .3dz override injection,
all of which produce or preserve 0x200 bytes) stores exactly that
trailer and leaves the first 510 bytes unchanged, and the unique-id
rewrite of `write_savegame` re-establishes the same property on disk. -/
theorem C7_confirmed (crc16 : List Nat → Nat) (hc : ∀ l, crc16 l < 0x10000) :
    (∀ cd : List Nat, cd.length = 0x200 →
      (set_checksum crc16 cd).length = 0x200 ∧
      (set_checksum crc16 cd).take 0x1FE = cd.take 0x1FE ∧
      (set_checksum crc16 cd).getD 0x1FE 0 * 0x100 + (set_checksum crc16 cd).getD 0x1FF 0
        = crc16 ((set_checksum crc16 cd).take 0x1FE)) ∧
    (∀ romf : Nat → Nat, (fallback_card_data crc16 romf).length = 0x200) ∧
    (∀ cd hdr : List Nat, (inject_header cd hdr).length = cd.length ∧
      (inject_3dz_extra cd hdr).length = cd.length) ∧
    (∀ (d : Nat → Nat) (rom_start : Nat),
      readBytes (write_savegame_crc crc16 d rom_start) (rom_start + 0x1400) 0x1FE
        = readBytes d (rom_start + 0x1400) 0x1FE ∧
      (write_savegame_crc crc16 d rom_start) (rom_start + 0x1400 + 0x1FE) * 0x100 +
        (write_savegame_crc crc16 d rom_start) (rom_start + 0x1400 + 0x1FF)
        = crc16 (readBytes (write_savegame_crc crc16 d rom_start)
            (rom_start + 0x1400) 0x1FE)) :=
  ⟨set_checksum_spec crc16 hc,
   fallback_card_data_length crc16,
   fun cd hdr => ⟨inject_header_length cd hdr, inject_3dz_extra_length cd hdr⟩,
   write_savegame_crc_spec crc16 hc⟩

/-- Sample 16-bit checksum function used to witness claim C7. -/
def crcSample : List Nat → Nat := fun _ => 0x1234

/-- Claim C7 (witness): the checksum invariant applied to a concrete
16-bit checksum function and a concrete 0x200-byte template. -/
theorem C7_witness :
    (∀ l : List Nat, crcSample l < 0x10000) ∧
    ((List.replicate 0x200 (5:Nat)).length = 0x200) ∧
    ((set_checksum crcSample (List.replicate 0x200 5)).length = 0x200 ∧
     (set_checksum crcSample (List.replicate 0x200 5)).take 0x1FE
       = (List.replicate 0x200 (5:Nat)).take 0x1FE ∧
     (set_checksum crcSample (List.replicate 0x200 5)).getD 0x1FE 0 * 0x100 +
       (set_checksum crcSample (List.replicate 0x200 5)).getD 0x1FF 0
       = crcSample ((set_checksum crcSample (List.replicate 0x200 5)).take 0x1FE)) :=
  ⟨fun l => (by decide : (0x1234:Nat) < 0x10000), by simp only [List.length_replicate],
    (C7_confirmed crcSample (fun l => (by decide : (0x1234:Nat) < 0x10000))).1
      (List.replicate 0x200 5) (by simp only [List.length_replicate])⟩

/-!
Savegame restore `write_savegame` and its helper `find_game` (claim C8).
The NCSD header decoder `gamecard.ncsd_header` is an external
collaborator, modelled as an abstract function on the first 0x1200 bytes
of the rom.
-/

/-- Card type decoded by the external `gamecard.ncsd_header`
collaborator (`Card1` or `Card2`). -/
inductive CardType where
  | card1
  | card2
  deriving DecidableEq, Repr

/-- Result of the external NCSD header decoder `gamecard.ncsd_header`:
the product code (as ASCII bytes), the card type, and the writable
address. -/
structure NcsdHeader where
  product_code : List Nat
  card_type : CardType
  writable_address : Nat
  deriving DecidableEq, Repr

/-- ASCII bytes of the signature CTR_SAVE of the savegame backup
format. -/
def ctrSaveBytes : List Nat := [0x43, 0x54, 0x52, 0x5F, 0x53, 0x41, 0x56, 0x45]

/-- Scan of `find_game`: walk the rom list with a running `rom_count`,
decode each rom's current on-disk NCSD header, and return the first
match on product code. -/
def find_game_aux (hdr : List Nat → NcsdHeader) (d : Nat → Nat)
    (product_code : List Nat) :
    List (Nat × Nat × Nat) → Nat → Option (Nat × NcsdHeader)
  | [], _ => none
  | rom :: rest, rom_count =>
    let h := hdr (readBytes d rom.2.1 0x1200)
    if h.product_code = product_code then some (rom_count, h)
    else find_game_aux hdr d product_code rest (rom_count + 1)

/-- `find_game`: find a game on the sdcard by product code; `(None, None)`
is modelled as `none`. -/
def find_game (hdr : List Nat → NcsdHeader) (d : Nat → Nat)
    (rom_list : List (Nat × Nat × Nat)) (product_code : List Nat) :
    Option (Nat × NcsdHeader) :=
  find_game_aux hdr d product_code rom_list 0

/-- Card2 payload loop of `write_savegame`:
`for i in range(0, 10): diskfp.write(savegamefp.read(0x100000))`; reads
past the end of the backup file return short or empty chunks, so chunk
`i` is `(payload.drop (0x100000 * i)).take 0x100000`. -/
def card2_write_loop (d : Nat → Nat) (pos : Nat) (payload : List Nat) : Nat → Nat :=
  (List.range 10).foldl
    (fun d i => writeBytes d (pos + 0x100000 * i) ((payload.drop (0x100000 * i)).take 0x100000))
    d

/-- Restore operation `write_savegame`: validate the `CTR_SAVE`
signature, locate the destination slot by product code via `find_game`,
write the backup's unique id at `rom_start + 0x1440`, recompute the
header checksum from the current on-disk header, and write the payload
to the location selected by the card type decoded from the *current*
on-disk NCSD header (the backup's own type/address fields at offsets
[0x12, 0x18) are read and discarded). -/
def write_savegame (hdr : List Nat → NcsdHeader) (crc16 : List Nat → Nat)
    (formatted : Bool) (d : Nat → Nat) (rom_list : List (Nat × Nat × Nat))
    (save : List Nat) : Except DiskError (Nat → Nat) :=
  if formatted = false then .error .notFormatted
  else if save.take 0x8 ≠ ctrSaveBytes then .error .invalidSavegameFile
  else
    match find_game hdr d rom_list ((save.drop 0x8).take 0xa) with
    | none => .error .gameNotFound
    | some (slot, h) =>
      let rom_start := (rom_list.getD slot (0, 0, 0)).2.1
      let d1 := writeBytes d (rom_start + 0x1440) ((save.drop 0x18).take 0x40)
      let d2 := write_savegame_crc crc16 d1 rom_start
      match h.card_type with
      | .card1 =>
        .ok (writeBytes d2 (0x100000 * (slot + 1)) ((save.drop 0x58).take 0x100000))
      | .card2 =>
        .ok (card2_write_loop d2 (rom_start + h.writable_address) (save.drop 0x58))

/-- Claim C8: `write_savegame` fails with `InvalidSavegameFile` for every
backup that does not begin with the 8-byte CTR_SAVE signature; fails with
`GameNotFound` when no occupied slot's decoded product code matches the
backup's product code; and otherwise ignores the backup's embedded
type/padding and writable-address fields (bytes [0x12, 0x18)): two
backups differing only there produce identical results, the policy being
re-derived from the current on-device ROM header via `find_game`. -/
theorem C8_confirmed (hdr : List Nat → NcsdHeader) (crc16 : List Nat → Nat)
    (d : Nat → Nat) (rom_list : List (Nat × Nat × Nat)) :
    (∀ save : List Nat, save.take 0x8 ≠ ctrSaveBytes →
      write_savegame hdr crc16 true d rom_list save = .error .invalidSavegameFile) ∧
    (∀ save : List Nat, save.take 0x8 = ctrSaveBytes →
      find_game hdr d rom_list ((save.drop 0x8).take 0xa) = none →
      write_savegame hdr crc16 true d rom_list save = .error .gameNotFound) ∧
    (∀ save mid : List Nat, 0x18 ≤ save.length → mid.length = 6 →
      write_savegame hdr crc16 true d rom_list (save.take 0x12 ++ mid ++ save.drop 0x18)
        = write_savegame hdr crc16 true d rom_list save) := by
  refine ⟨?_, ?_, ?_⟩
  · intro save hsig
    unfold write_savegame
    rw [if_neg (by simp), if_pos hsig]
  · intro save hsig hfind
    unfold write_savegame
    rw [if_neg (by simp), if_neg (by simp [hsig]), hfind]
  · intro save mid hlen hmid
    have hA : (save.take 0x12).length = 0x12 := by
      rw [List.length_take]
      omega
    have h1 : (save.take 0x12 ++ mid ++ save.drop 0x18).take 0x8 = save.take 0x8 := by
      rw [List.append_assoc, List.take_append_of_le_length (by omega), List.take_take]
      norm_num
    have h2 : ((save.take 0x12 ++ mid ++ save.drop 0x18).drop 0x8).take 0xa
        = (save.drop 0x8).take 0xa := by
      rw [List.append_assoc, List.drop_append_of_le_length (by omega)]
      rw [List.take_append_of_le_length (by rw [List.length_drop]; omega)]
      rw [List.drop_take, show (0x12 - 0x8 : Nat) = 0xa from by norm_num, List.take_take]
      norm_num
    have h3 : (save.take 0x12 ++ mid ++ save.drop 0x18).drop 0x18 = save.drop 0x18 := by
      apply List.drop_left'
      rw [List.length_append, hA, hmid]
    have h4 : (save.take 0x12 ++ mid ++ save.drop 0x18).drop 0x58 = save.drop 0x58 := by
      have hstep := congrArg (List.drop 0x40) h3
      rw [List.drop_drop, List.drop_drop] at hstep
      rw [show (0x18 + 0x40 : Nat) = 0x58 from by norm_num] at hstep
      exact hstep
    unfold write_savegame
    rw [h1, h2, h3, h4]

/-- Claim C8 (witness): the three clauses applied at concrete inputs: an
empty backup file (bad signature), a well-signed backup on an empty disk
(no match), and two backups differing only in the ignored fields. -/
theorem C8_witness :
    (([] : List Nat).take 0x8 ≠ ctrSaveBytes ∧
      write_savegame (fun _ => ⟨[], .card1, 0⟩) (fun _ => 0) true (fun _ => 0) [] []
        = .error .invalidSavegameFile) ∧
    ((ctrSaveBytes ++ List.replicate 0x50 0).take 0x8 = ctrSaveBytes ∧
      find_game (fun _ => ⟨[0x41], .card1, 0⟩) (fun _ => 0) []
        (((ctrSaveBytes ++ List.replicate 0x50 0).drop 0x8).take 0xa) = none ∧
      write_savegame (fun _ => ⟨[0x41], .card1, 0⟩) (fun _ => 0) true (fun _ => 0) []
        (ctrSaveBytes ++ List.replicate 0x50 0) = .error .gameNotFound) ∧
    (0x18 ≤ (List.replicate 0x60 (1:Nat)).length ∧ (List.replicate 6 (9:Nat)).length = 6 ∧
      write_savegame (fun _ => ⟨[0x41], .card1, 0⟩) (fun _ => 0) true (fun _ => 0) []
          ((List.replicate 0x60 1).take 0x12 ++ List.replicate 6 9 ++
            (List.replicate 0x60 1).drop 0x18)
        = write_savegame (fun _ => ⟨[0x41], .card1, 0⟩) (fun _ => 0) true (fun _ => 0) []
            (List.replicate 0x60 1)) :=
  ⟨⟨by decide,
    (C8_confirmed (fun _ => ⟨[], .card1, 0⟩) (fun _ => 0) (fun _ => 0) []).1 [] (by decide)⟩,
   ⟨by decide, by decide,
    (C8_confirmed (fun _ => ⟨[0x41], .card1, 0⟩) (fun _ => 0) (fun _ => 0) []).2.1
      (ctrSaveBytes ++ List.replicate 0x50 0) (by decide) (by decide)⟩,
   ⟨by decide, by decide,
    (C8_confirmed (fun _ => ⟨[0x41], .card1, 0⟩) (fun _ => 0) (fun _ => 0) []).2.2
      (List.replicate 0x60 1) (List.replicate 6 9) (by decide) (by decide)⟩⟩

/-!
Deletion `delete_rom` (claims C6 and C10).
-/

/-- Copy of one savegame staging region inside the loop of `delete_rom`
(`seek(src); tmp_savegame = read(len); seek(dst); write(tmp_savegame)`):
the bytes at `[src, src+len)` are read first and then written to
`[dst, dst+len)`. -/
def copyRegion (d : Nat → Nat) (src dst len : Nat) : Nat → Nat :=
  writeBytes d dst (readBytes d src len)

/-- Savegame shift loop of `delete_rom`, iterating
`while current_save < len(rom_list)` a total of `len(rom_list) -
current_save` times; returns the disk and the file position after the
loop (each iteration ends with the write at `0x100000 * (current_save + 1)`,
leaving the position at `0x100000 * (current_save + 2)`). -/
def delete_save_loop (d : Nat → Nat) (pos cs : Nat) : Nat → (Nat → Nat) × Nat
  | 0 => (d, pos)
  | k+1 =>
    delete_save_loop
      (copyRegion d (0x100000 * (cs + 2)) (0x100000 * (cs + 1)) 0x100000)
      (0x100000 * (cs + 2)) (cs + 1) k

/-- New raw slot table computed by `delete_rom`:
`raw_positions[0:slot*8] + raw_positions[(slot+1)*8:] + [0xff]*8`
(Python slices clamp at the list length, as do `take` and `drop`). -/
def delete_table_bytes (raw : List Nat) (slot : Nat) : List Nat :=
  raw.take (slot * 8) ++ raw.drop ((slot + 1) * 8) ++ List.replicate 8 0xFF

/-- Deletion operation `delete_rom` for a disk whose file handle is at
byte position `pos0`: requires a formatted disk, runs the savegame shift
loop, writes 1 MiB of 0xFF at the current position, reads the 0x100-byte
table, and writes back the table with the record at `slot` removed and an
all-ones sentinel appended.  Returns the final disk and the table bytes
written. -/
def delete_rom (formatted : Bool) (d : Nat → Nat) (pos0 : Nat)
    (rom_count slot : Nat) : Except DiskError ((Nat → Nat) × List Nat) :=
  if formatted = false then .error .notFormatted
  else
    let s := delete_save_loop d pos0 slot (rom_count - slot)
    let d2 := writeBytes s.1 s.2 (List.replicate 0x100000 0xFF)
    let new_raw := delete_table_bytes (readBytes d2 0 0x100) slot
    .ok (writeBytes d2 0 new_raw, new_raw)

theorem delete_table_bytes_length (raw : List Nat) (slot : Nat)
    (hraw : raw.length = 0x100) (hslot : slot ≤ 31) :
    (delete_table_bytes raw slot).length = 0x100 := by
  unfold delete_table_bytes
  simp only [List.length_append, List.length_take, List.length_drop,
    List.length_replicate, hraw]
  omega

theorem delete_table_bytes_of_ge32 (raw : List Nat) (slot : Nat)
    (hraw : raw.length = 0x100) (hslot : 0x20 ≤ slot) :
    delete_table_bytes raw slot = raw ++ List.replicate 8 0xFF := by
  unfold delete_table_bytes
  rw [List.take_of_length_le (by omega), List.drop_of_length_le (by omega)]
  simp

/-- Claim C10: `delete_rom` performs no slot-index validation: for every
slot index at least the occupied count it raises no error, the savegame
shift loop runs zero iterations and leaves the file position unchanged,
1 MiB of 0xFF is nevertheless written at the file handle's current
position, and the slot table is rewritten as
`raw[0 : slot*8] ++ raw[(slot+1)*8 :] ++ sentinel` — 0x100 bytes when
`slot ≤ 31`, and for `slot ≥ 32` literally the whole previous 0x100-byte
table with the 8-byte all-ones sentinel appended (overwriting the 8
bytes after the table, i.e. the format magic at 0x100). -/
theorem C10_confirmed (d : Nat → Nat) (pos0 rom_count slot : Nat)
    (h : rom_count ≤ slot) :
    delete_save_loop d pos0 slot (rom_count - slot) = (d, pos0) ∧
    delete_rom true d pos0 rom_count slot =
      .ok (writeBytes (writeBytes d pos0 (List.replicate 0x100000 0xFF)) 0
             (delete_table_bytes
               (readBytes (writeBytes d pos0 (List.replicate 0x100000 0xFF)) 0 0x100) slot),
           delete_table_bytes
             (readBytes (writeBytes d pos0 (List.replicate 0x100000 0xFF)) 0 0x100) slot) ∧
    (∀ raw : List Nat, raw.length = 0x100 →
      (slot ≤ 31 → (delete_table_bytes raw slot).length = 0x100) ∧
      (0x20 ≤ slot → delete_table_bytes raw slot = raw ++ List.replicate 8 0xFF)) := by
  have hzero : rom_count - slot = 0 := by omega
  have hloop : delete_save_loop d pos0 slot (rom_count - slot) = (d, pos0) := by
    rw [hzero]
    rfl
  refine ⟨hloop, ?_, ?_⟩
  · unfold delete_rom
    rw [if_neg (by simp), hloop]
  · intro raw hraw
    exact ⟨delete_table_bytes_length raw slot hraw,
      delete_table_bytes_of_ge32 raw slot hraw⟩

/-- Claim C10 (witness): deleting slot 5 of a single-rom disk whose
handle sits at byte 0x12345. -/
theorem C10_witness :
    (1:Nat) ≤ 5 ∧
    (delete_save_loop (fun _ => 0) 0x12345 5 (1 - 5) = (fun _ => (0:Nat), 0x12345) ∧
    delete_rom true (fun _ => 0) 0x12345 1 5 =
      .ok (writeBytes (writeBytes (fun _ => 0) 0x12345 (List.replicate 0x100000 0xFF)) 0
             (delete_table_bytes
               (readBytes (writeBytes (fun _ => 0) 0x12345 (List.replicate 0x100000 0xFF))
                 0 0x100) 5),
           delete_table_bytes
             (readBytes (writeBytes (fun _ => 0) 0x12345 (List.replicate 0x100000 0xFF))
               0 0x100) 5) ∧
    (∀ raw : List Nat, raw.length = 0x100 →
      ((5:Nat) ≤ 31 → (delete_table_bytes raw 5).length = 0x100) ∧
      ((0x20:Nat) ≤ 5 → delete_table_bytes raw 5 = raw ++ List.replicate 8 0xFF))) :=
  ⟨by decide, C10_confirmed (fun _ => 0) 0x12345 1 5 (by decide)⟩

theorem copyRegion_value_in (d : Nat → Nat) (src dst len a : Nat)
    (h : dst ≤ a ∧ a < dst + len) :
    copyRegion d src dst len a = d (src + (a - dst)) := by
  unfold copyRegion
  rw [writeBytes_value_in _ _ _ _ (by rw [readBytes_length]; exact h)]
  rw [getD_lt _ _ (by rw [readBytes_length]; omega), readBytes_getElem]

theorem copyRegion_value_out (d : Nat → Nat) (src dst len a : Nat)
    (h : ¬ (dst ≤ a ∧ a < dst + len)) :
    copyRegion d src dst len a = d a := by
  unfold copyRegion
  exact writeBytes_value_out _ _ _ _ (by rw [readBytes_length]; exact h)

/-- Claim C6 (counterexample): deleting slot 0 of a one-rom disk whose
bytes are all zero leaves the vacated (and only) savegame staging region
at byte 0x100000 holding a copy of the bytes of the *following* region
(value 0), not 0xFF as the claim states; the 0xFF fill lands one region
later, at byte 0x200000. -/
theorem C6_counterexample :
    (delete_rom true (fun _ => 0) 0 1 0).toOption.map (fun p => p.1 0x100000) = some 0 ∧
    (delete_rom true (fun _ => 0) 0 1 0).toOption.map (fun p => p.1 0x100000)
      ≠ some 0xFF := by
  have hloop : delete_save_loop (fun _ : Nat => (0:Nat)) 0 0 (1 - 0) =
      (copyRegion (fun _ => 0) (0x100000 * (0 + 2)) (0x100000 * (0 + 1)) 0x100000,
       0x100000 * (0 + 2)) := rfl
  have hval : ∀ p : (Nat → Nat) × List Nat,
      delete_rom true (fun _ => 0) 0 1 0 = .ok p → p.1 0x100000 = 0 := by
    intro p hp
    unfold delete_rom at hp
    rw [if_neg (by simp), hloop] at hp
    have hp1 := congrArg (fun q : (Nat → Nat) × List Nat => q.1 0x100000)
      (Except.ok.inj hp).symm
    simp only at hp1
    rw [hp1]
    rw [writeBytes_value_out _ _ _ _ (by
      rw [delete_table_bytes_length _ _ (readBytes_length _ _ _) (by omega)]
      omega)]
    rw [writeBytes_value_out _ _ _ _ (by
      simp only [List.length_replicate]
      omega)]
    rw [copyRegion_value_in _ _ _ _ _ (by omega)]
  have hcase : ∃ p, delete_rom true (fun _ => 0) 0 1 0 = .ok p := by
    unfold delete_rom
    rw [if_neg (by simp)]
    exact ⟨_, rfl⟩
  rcases hcase with ⟨p, hp⟩
  rw [hp]
  simp only [Except.toOption, Option.map_some']
  rw [hval p hp]
  exact ⟨rfl, by decide⟩

theorem update_positions_of_prefix (t : List Nat) (m : Nat) (hm : m ≤ 32)
    (hq : ∀ i, i < m → 0 < (decodeRecord t i).1 ∧ 0 < (decodeRecord t i).2)
    (hs : ∀ i, m ≤ i → i < 32 → ¬ (0 < (decodeRecord t i).1 ∧ 0 < (decodeRecord t i).2)) :
    update_positions t = (List.range m).map
      (fun k => (k, (512 * (decodeRecord t k).1).toNat, (512 * (decodeRecord t k).2).toNat)) := by
  rw [update_positions_eq_foldl, positions_foldl_characterization]
  have hsplit : List.range 32 = List.range m ++ (List.range (32 - m)).map (m + ·) := by
    rw [← List.range_add]
    congr 1
    omega
  have hfilter : ((List.range 32).map (decodeRecord t)).filter
      (fun p => decide (0 < p.1 ∧ 0 < p.2)) = (List.range m).map (decodeRecord t) := by
    rw [hsplit, List.map_append, List.filter_append]
    have hf1 : ((List.range m).map (decodeRecord t)).filter
        (fun p => decide (0 < p.1 ∧ 0 < p.2)) = (List.range m).map (decodeRecord t) := by
      rw [List.filter_eq_self]
      intro a ha
      rcases List.mem_map.mp ha with ⟨i, hi, rfl⟩
      have := hq i (List.mem_range.mp hi)
      simpa using this
    have hf2 : (((List.range (32 - m)).map (m + ·)).map (decodeRecord t)).filter
        (fun p => decide (0 < p.1 ∧ 0 < p.2)) = [] := by
      rw [List.filter_eq_nil_iff]
      intro a ha
      rcases List.mem_map.mp ha with ⟨j, hj, hja⟩
      rcases List.mem_map.mp hj with ⟨i, hi, hij⟩
      subst hja
      subst hij
      have := hs (m + i) (by omega) (by have := List.mem_range.mp hi; omega)
      simpa using this
    rw [hf1, hf2, List.append_nil]
  rw [hfilter]
  apply List.ext_getElem
  · simp [List.enumFrom_length]
  · intro k h1 h2
    simp only [List.nil_append, List.getElem_map, List.getElem_enumFrom,
      List.getElem_range, List.length_nil]
    simp

theorem delete_table_bytes_getD (raw : List Nat) (slot : Nat) (hraw : raw.length = 0x100)
    (hslot : slot ≤ 31) (idx : Nat) (hidx : idx < 0x100) :
    (delete_table_bytes raw slot).getD idx 0 =
      if idx < slot * 8 then raw.getD idx 0
      else if idx < 0xF8 then raw.getD (idx + 8) 0
      else 0xFF := by
  have hlenA : (raw.take (slot * 8)).length = slot * 8 := by
    rw [List.length_take]
    omega
  have hlenB : (raw.drop ((slot + 1) * 8)).length = 0x100 - (slot + 1) * 8 := by
    rw [List.length_drop, hraw]
  rw [getD_lt _ _ (by rw [delete_table_bytes_length raw slot hraw hslot]; omega)]
  unfold delete_table_bytes
  by_cases h1 : idx < slot * 8
  · rw [List.getElem_append_left (by rw [List.length_append, hlenA, hlenB]; omega),
      List.getElem_append_left (by rw [hlenA]; omega), List.getElem_take]
    rw [if_pos h1, getD_lt _ _ (by omega)]
  · by_cases h2 : idx < 0xF8
    · rw [List.getElem_append_left (by rw [List.length_append, hlenA, hlenB]; omega),
        List.getElem_append_right (by rw [hlenA]; omega), List.getElem_drop]
      rw [if_neg h1, if_pos h2, getD_lt _ _ (by omega)]
      congr 1
      rw [hlenA]
      omega
    · rw [List.getElem_append_right (by rw [List.length_append, hlenA, hlenB]; omega),
        List.getElem_replicate]
      rw [if_neg h1, if_neg h2]

theorem delete_table_getD_lo (raw : List Nat) (slot idx : Nat) (hraw : raw.length = 0x100)
    (hslot : slot ≤ 31) (h : idx < slot * 8) :
    (delete_table_bytes raw slot).getD idx 0 = raw.getD idx 0 := by
  rw [delete_table_bytes_getD raw slot hraw hslot idx (by omega), if_pos h]

theorem delete_table_getD_mid (raw : List Nat) (slot idx : Nat) (hraw : raw.length = 0x100)
    (hslot : slot ≤ 31) (h1 : ¬ idx < slot * 8) (h2 : idx < 0xF8) :
    (delete_table_bytes raw slot).getD idx 0 = raw.getD (idx + 8) 0 := by
  rw [delete_table_bytes_getD raw slot hraw hslot idx (by omega), if_neg h1, if_pos h2]

theorem delete_table_getD_hi (raw : List Nat) (slot idx : Nat) (hraw : raw.length = 0x100)
    (hslot : slot ≤ 31) (h1 : ¬ idx < slot * 8) (h2 : ¬ idx < 0xF8) (h3 : idx < 0x100) :
    (delete_table_bytes raw slot).getD idx 0 = 0xFF := by
  rw [delete_table_bytes_getD raw slot hraw hslot idx h3, if_neg h1, if_neg h2]

theorem decodeRecord_delete_table (raw : List Nat) (slot j : Nat)
    (hraw : raw.length = 0x100) (hslot : slot ≤ 31) (hj : j < 32) :
    decodeRecord (delete_table_bytes raw slot) j =
      if j < slot then decodeRecord raw j
      else if j < 31 then decodeRecord raw (j + 1)
      else (-1, -1) := by
  unfold decodeRecord readS32
  by_cases h1 : j < slot
  · rw [if_pos h1]
    rw [delete_table_getD_lo raw slot (8*j) hraw hslot (by omega),
      delete_table_getD_lo raw slot (8*j+1) hraw hslot (by omega),
      delete_table_getD_lo raw slot (8*j+2) hraw hslot (by omega),
      delete_table_getD_lo raw slot (8*j+3) hraw hslot (by omega),
      delete_table_getD_lo raw slot (8*j+4) hraw hslot (by omega),
      delete_table_getD_lo raw slot (8*j+4+1) hraw hslot (by omega),
      delete_table_getD_lo raw slot (8*j+4+2) hraw hslot (by omega),
      delete_table_getD_lo raw slot (8*j+4+3) hraw hslot (by omega)]
  · by_cases h2 : j < 31
    · rw [if_neg h1, if_pos h2]
      rw [delete_table_getD_mid raw slot (8*j) hraw hslot (by omega) (by omega),
        delete_table_getD_mid raw slot (8*j+1) hraw hslot (by omega) (by omega),
        delete_table_getD_mid raw slot (8*j+2) hraw hslot (by omega) (by omega),
        delete_table_getD_mid raw slot (8*j+3) hraw hslot (by omega) (by omega),
        delete_table_getD_mid raw slot (8*j+4) hraw hslot (by omega) (by omega),
        delete_table_getD_mid raw slot (8*j+4+1) hraw hslot (by omega) (by omega),
        delete_table_getD_mid raw slot (8*j+4+2) hraw hslot (by omega) (by omega),
        delete_table_getD_mid raw slot (8*j+4+3) hraw hslot (by omega) (by omega)]
      rw [show 8*j+1+8 = 8*(j+1)+1 from by omega, show 8*j+2+8 = 8*(j+1)+2 from by omega,
        show 8*j+3+8 = 8*(j+1)+3 from by omega, show 8*j+4+1+8 = 8*(j+1)+4+1 from by omega,
        show 8*j+4+2+8 = 8*(j+1)+4+2 from by omega,
        show 8*j+4+3+8 = 8*(j+1)+4+3 from by omega, show 8*j+8 = 8*(j+1) from by omega,
        show 8*j+4+8 = 8*(j+1)+4 from by omega]
    · have hj31 : j = 31 := by omega
      subst hj31
      rw [if_neg h1, if_neg h2]
      rw [delete_table_getD_hi raw slot (8*31) hraw hslot (by omega) (by omega) (by omega),
        delete_table_getD_hi raw slot (8*31+1) hraw hslot (by omega) (by omega) (by omega),
        delete_table_getD_hi raw slot (8*31+2) hraw hslot (by omega) (by omega) (by omega),
        delete_table_getD_hi raw slot (8*31+3) hraw hslot (by omega) (by omega) (by omega),
        delete_table_getD_hi raw slot (8*31+4) hraw hslot (by omega) (by omega) (by omega),
        delete_table_getD_hi raw slot (8*31+4+1) hraw hslot (by omega) (by omega) (by omega),
        delete_table_getD_hi raw slot (8*31+4+2) hraw hslot (by omega) (by omega) (by omega),
        delete_table_getD_hi raw slot (8*31+4+3) hraw hslot (by omega) (by omega) (by omega)]
      norm_num

theorem delete_save_loop_spec (k : Nat) :
    ∀ (d : Nat → Nat) (pos cs : Nat),
      (∀ a, (delete_save_loop d pos cs k).1 a =
        if 0x100000 * (cs + 1) ≤ a ∧ a < 0x100000 * (cs + k + 1) then d (a + 0x100000)
        else d a) ∧
      (delete_save_loop d pos cs k).2 = if k = 0 then pos else 0x100000 * (cs + k + 1) := by
  induction k with
  | zero =>
    intro d pos cs
    constructor
    · intro a
      rw [if_neg (by omega)]
      rfl
    · rfl
  | succ k ih =>
    intro d pos cs
    constructor
    · intro a
      show (delete_save_loop
        (copyRegion d (0x100000 * (cs + 2)) (0x100000 * (cs + 1)) 0x100000)
        (0x100000 * (cs + 2)) (cs + 1) k).1 a = _
      rw [(ih _ _ _).1 a]
      by_cases hA : 0x100000 * (cs + 1 + 1) ≤ a ∧ a < 0x100000 * (cs + 1 + k + 1)
      · rw [if_pos hA, if_pos (by omega)]
        rw [copyRegion_value_out _ _ _ _ _ (by omega)]
      · rw [if_neg hA]
        by_cases hB : 0x100000 * (cs + 1) ≤ a ∧ a < 0x100000 * (cs + 2)
        · rw [copyRegion_value_in _ _ _ _ _ (by omega), if_pos (by omega)]
          exact congrArg d (by omega)
        · rw [copyRegion_value_out _ _ _ _ _ (by omega), if_neg (by omega)]
    · show (delete_save_loop
        (copyRegion d (0x100000 * (cs + 2)) (0x100000 * (cs + 1)) 0x100000)
        (0x100000 * (cs + 2)) (cs + 1) k).2 = _
      rw [(ih _ _ _).2]
      by_cases hk : k = 0
      · rw [if_pos hk, if_neg (by omega)]
        rw [hk]
      · rw [if_neg hk, if_neg (by omega)]
        congr 1
        omega

theorem readBytes_congr (d1 d2 : Nat → Nat) (pos n : Nat)
    (h : ∀ i, i < n → d1 (pos + i) = d2 (pos + i)) :
    readBytes d1 pos n = readBytes d2 pos n := by
  unfold readBytes
  exact List.map_congr_left (fun i hi => h i (List.mem_range.mp hi))

theorem eraseIdx_map_range {α : Type} (f : Nat → α) (n slot : Nat) (hslot : slot < n) :
    ((List.range n).map f).eraseIdx slot
      = (List.range (n - 1)).map (fun k => if k < slot then f k else f (k + 1)) := by
  apply List.ext_getElem
  · rw [List.length_eraseIdx]
    simp only [List.length_map, List.length_range]
    rw [if_pos hslot]
  · intro i h1 h2
    rw [List.getElem_eraseIdx]
    simp only [List.length_map, List.length_range] at h1 h2
    by_cases hi : i < slot
    · rw [dif_pos hi]
      rw [List.getElem_map, List.getElem_map, List.getElem_range, List.getElem_range,
        if_pos hi]
    · rw [dif_neg hi]
      rw [List.getElem_map, List.getElem_map, List.getElem_range, List.getElem_range,
        if_neg hi]

/-- One-rom disk used as a concrete instance: slot record 0 is
(start-sector 1, size-sector 1), all other bytes are zero. -/
def oneRomDisk : Nat → Nat := fun a => if a = 0 then 1 else if a = 4 then 1 else 0

/-- Claim C6 (amended): for every occupied slot table and occupied slot,
`delete_rom` copies each 1 MiB savegame staging region from `slot+1`
through one PAST the last occupied region one position earlier, so the
vacated last staging region receives the bytes of the (unoccupied)
following region rather than being 0xFF-filled, and the 1 MiB 0xFF fill
lands one region past the last staging region (at byte
`0x100000*(rom_count+1)`); the table is rewritten as
`raw[0:slot*8] + raw[(slot+1)*8:] + [0xff]*8`, and on a gap-free table
the surfaced records keep their original relative order with the deleted
one removed and the occupied count decreases by exactly one. -/
theorem C6_amended (d : Nat → Nat) (pos0 rom_count slot : Nat)
    (hrc : rom_count ≤ 32) (hslot : slot < rom_count)
    (hocc : ∀ i, i < rom_count →
      0 < (decodeRecord (readBytes d 0 0x100) i).1 ∧
      0 < (decodeRecord (readBytes d 0 0x100) i).2)
    (hgap : ∀ i, i < 32 → rom_count ≤ i →
      ¬ (0 < (decodeRecord (readBytes d 0 0x100) i).1 ∧
         0 < (decodeRecord (readBytes d 0 0x100) i).2)) :
    ∃ d3 new_raw,
      delete_rom true d pos0 rom_count slot = .ok (d3, new_raw) ∧
      new_raw = delete_table_bytes (readBytes d 0 0x100) slot ∧
      (∀ a, d3 a =
        if a < 0x100 then new_raw.getD a 0
        else if 0x100000 * (slot + 1) ≤ a ∧ a < 0x100000 * (rom_count + 1) then
          d (a + 0x100000)
        else if 0x100000 * (rom_count + 1) ≤ a ∧ a < 0x100000 * (rom_count + 2) then
          0xFF
        else d a) ∧
      (update_positions new_raw).length = rom_count - 1 ∧
      (update_positions new_raw).map (fun e => (e.2.1, e.2.2))
        = ((update_positions (readBytes d 0 0x100)).map
            (fun e => (e.2.1, e.2.2))).eraseIdx slot := by
  have hraw : (readBytes d 0 0x100).length = 0x100 := readBytes_length d 0 0x100
  have hslot31 : slot ≤ 31 := by omega
  have hloop := delete_save_loop_spec (rom_count - slot) d pos0 slot
  have hpos : (delete_save_loop d pos0 slot (rom_count - slot)).2
      = 0x100000 * (rom_count + 1) := by
    rw [hloop.2, if_neg (by omega)]
    exact congrArg (fun t => 0x100000 * t)
      (show slot + (rom_count - slot) + 1 = rom_count + 1 from by omega)
  have hs1val : ∀ a, (delete_save_loop d pos0 slot (rom_count - slot)).1 a =
      if 0x100000 * (slot + 1) ≤ a ∧ a < 0x100000 * (rom_count + 1) then
        d (a + 0x100000)
      else d a := by
    intro a
    rw [hloop.1 a, show slot + (rom_count - slot) + 1 = rom_count + 1 from by omega]
  have hd2val : ∀ a,
      writeBytes (delete_save_loop d pos0 slot (rom_count - slot)).1
        (delete_save_loop d pos0 slot (rom_count - slot)).2
        (List.replicate 0x100000 0xFF) a =
      if 0x100000 * (rom_count + 1) ≤ a ∧ a < 0x100000 * (rom_count + 2) then 0xFF
      else if 0x100000 * (slot + 1) ≤ a ∧ a < 0x100000 * (rom_count + 1) then
        d (a + 0x100000)
      else d a := by
    intro a
    rw [hpos]
    by_cases hA : 0x100000 * (rom_count + 1) ≤ a ∧ a < 0x100000 * (rom_count + 2)
    · rw [if_pos hA,
        writeBytes_value_in _ _ _ _ (by simp only [List.length_replicate]; omega)]
      rw [List.getD_eq_getElem _ _ (by simp only [List.length_replicate]; omega),
        List.getElem_replicate]
    · rw [if_neg hA,
        writeBytes_value_out _ _ _ _ (by simp only [List.length_replicate]; omega)]
      exact hs1val a
  have hreads : readBytes
      (writeBytes (delete_save_loop d pos0 slot (rom_count - slot)).1
        (delete_save_loop d pos0 slot (rom_count - slot)).2
        (List.replicate 0x100000 0xFF)) 0 0x100 = readBytes d 0 0x100 := by
    apply readBytes_congr
    intro i hi
    rw [hd2val]
    rw [if_neg (by omega), if_neg (by omega)]
  have hrun : delete_rom true d pos0 rom_count slot =
      .ok (writeBytes
             (writeBytes (delete_save_loop d pos0 slot (rom_count - slot)).1
               (delete_save_loop d pos0 slot (rom_count - slot)).2
               (List.replicate 0x100000 0xFF)) 0
             (delete_table_bytes (readBytes d 0 0x100) slot),
           delete_table_bytes (readBytes d 0 0x100) slot) := by
    unfold delete_rom
    rw [if_neg (by simp), ← hreads]
  have hnrlen : (delete_table_bytes (readBytes d 0 0x100) slot).length = 0x100 :=
    delete_table_bytes_length _ _ hraw hslot31
  have hdecNR : ∀ j, j < 32 →
      decodeRecord (delete_table_bytes (readBytes d 0 0x100) slot) j =
      if j < slot then decodeRecord (readBytes d 0 0x100) j
      else if j < 31 then decodeRecord (readBytes d 0 0x100) (j + 1)
      else (-1, -1) :=
    fun j hj => decodeRecord_delete_table _ slot j hraw hslot31 hj
  have hupNR : update_positions (delete_table_bytes (readBytes d 0 0x100) slot) =
      (List.range (rom_count - 1)).map
        (fun k => (k,
          (512 * (decodeRecord (delete_table_bytes (readBytes d 0 0x100) slot) k).1).toNat,
          (512 * (decodeRecord (delete_table_bytes (readBytes d 0 0x100) slot) k).2).toNat)) := by
    apply update_positions_of_prefix _ _ (by omega)
    · intro i hi
      rw [hdecNR i (by omega)]
      by_cases hi2 : i < slot
      · rw [if_pos hi2]
        exact hocc i (by omega)
      · rw [if_neg hi2, if_pos (show i < 31 from by omega)]
        exact hocc (i + 1) (by omega)
    · intro i hi1 hi2
      rw [hdecNR i hi2]
      rw [if_neg (show ¬ i < slot from by omega)]
      by_cases hi3 : i < 31
      · rw [if_pos hi3]
        exact hgap (i + 1) (by omega) (by omega)
      · rw [if_neg hi3]
        decide
  have hupRAW : update_positions (readBytes d 0 0x100) =
      (List.range rom_count).map
        (fun k => (k, (512 * (decodeRecord (readBytes d 0 0x100) k).1).toNat,
          (512 * (decodeRecord (readBytes d 0 0x100) k).2).toNat)) :=
    update_positions_of_prefix _ rom_count hrc hocc (fun i h1 h2 => hgap i h2 h1)
  refine ⟨_, _, hrun, rfl, ?_, ?_, ?_⟩
  · intro a
    by_cases h0 : a < 0x100
    · rw [if_pos h0, writeBytes_value_in _ _ _ _ (by rw [hnrlen]; omega), Nat.sub_zero]
    · rw [if_neg h0, writeBytes_value_out _ _ _ _ (by rw [hnrlen]; omega), hd2val a]
      by_cases hB : 0x100000 * (slot + 1) ≤ a ∧ a < 0x100000 * (rom_count + 1)
      · rw [if_neg (show ¬ (0x100000 * (rom_count + 1) ≤ a ∧
            a < 0x100000 * (rom_count + 2)) from by omega), if_pos hB, if_pos hB]
      · by_cases hC : 0x100000 * (rom_count + 1) ≤ a ∧ a < 0x100000 * (rom_count + 2)
        · rw [if_pos hC, if_neg hB, if_pos hC]
        · rw [if_neg hC, if_neg hB, if_neg hB, if_neg hC]
  · rw [hupNR]
    simp only [List.length_map, List.length_range]
  · rw [hupNR, hupRAW, List.map_map, List.map_map,
      eraseIdx_map_range _ rom_count slot hslot]
    apply List.map_congr_left
    intro k hk
    have hk2 : k < rom_count - 1 := List.mem_range.mp hk
    dsimp only [Function.comp]
    rw [hdecNR k (by omega)]
    by_cases hk3 : k < slot
    · rw [if_pos hk3, if_pos hk3]
    · rw [if_neg hk3, if_pos (show k < 31 from by omega), if_neg hk3]

/-- Witness for C6: deleting slot 0 of a formatted one-rom disk. -/
theorem C6_witness :
    ∃ d3 new_raw,
      delete_rom true oneRomDisk 0 1 0 = .ok (d3, new_raw) ∧
      new_raw = delete_table_bytes (readBytes oneRomDisk 0 0x100) 0 ∧
      (∀ a, d3 a =
        if a < 0x100 then new_raw.getD a 0
        else if 0x100000 * (0 + 1) ≤ a ∧ a < 0x100000 * (1 + 1) then
          oneRomDisk (a + 0x100000)
        else if 0x100000 * (1 + 1) ≤ a ∧ a < 0x100000 * (1 + 2) then
          0xFF
        else oneRomDisk a) ∧
      (update_positions new_raw).length = 1 - 1 ∧
      (update_positions new_raw).map (fun e => (e.2.1, e.2.2))
        = ((update_positions (readBytes oneRomDisk 0 0x100)).map
            (fun e => (e.2.1, e.2.2))).eraseIdx 0 :=
  C6_amended oneRomDisk 0 1 0 (by decide) (by decide) (by decide) (by decide)

/-- Claim C9 (amended): `dump_rom` fails for every slot index that is out
of range of the occupied slot list, but with an uncaught `IndexError`
from the `self.rom_list[slot]` subscript, not with the explicit
`SlotNotFound` error that `dump_savegame` raises. -/
theorem C9_amended (d : Nat → Nat) (rom_list : List (Nat × Nat × Nat)) (slot : Nat)
    (hslot : rom_list.length ≤ slot) :
    dump_rom true d rom_list slot = .error .indexError ∧
    dump_rom true d rom_list slot ≠ .error .slotNotFound := by
  have hnone : rom_list[slot]? = none := List.getElem?_eq_none hslot
  constructor
  · simp [dump_rom, hnone]
  · simp [dump_rom, hnone]

/-- Claim C9 (counterexample): extracting slot 0 from a disk with no
occupied slots fails with an uncaught `IndexError`, not with
`SlotNotFound` as the claim states. -/
theorem C9_counterexample :
    dump_rom true (fun _ => 0) [] 0 = .error .indexError ∧
    dump_rom true (fun _ => 0) [] 0 ≠ .error .slotNotFound := by
  constructor
  · rfl
  · intro hcon
    exact DiskError.noConfusion (Except.error.inj hcon)

/-- Claim C9 (witness): the out-of-range failure applied to slot 3 of a
one-rom list. -/
theorem C9_witness :
    ([(0, 0x2000000, 0x2000000)] : List (Nat × Nat × Nat)).length ≤ 3 ∧
    (dump_rom true (fun _ => 0) [(0, 0x2000000, 0x2000000)] 3 = .error .indexError ∧
     dump_rom true (fun _ => 0) [(0, 0x2000000, 0x2000000)] 3 ≠ .error .slotNotFound) :=
  ⟨by decide, C9_amended (fun _ => 0) [(0, 0x2000000, 0x2000000)] 3 (by decide)⟩

end Sky3DS
